import Mathlib

/-!
# Verification development for the terminfo library

Shallow embedding of `terminfo.go` (the template interpreter `Unescape` and the
binary decoder `load1`) and proofs of properties of that code.

Conventions of the embedding

* A byte is a natural number (`< 256` for every value read from a real buffer), a byte
  string is a `List Nat`.
* A Go `int` is a 64-bit two's-complement integer: it is an `Int`, and every arithmetic
  result that can leave the range is reduced with `wrapInt`.
* A run-time panic of the Go program (index out of range, failed type assertion,
  division by zero, negative `make`) is the outcome `Res.panic`.
-/

namespace Terminfo

/-! ## Outcomes and errors -/

/-- The error values of `errors.go`, together with the error that `strconv.Atoi` returns
(`NumError`), which `Unescape` passes on unchanged. -/
inductive Err where
  | ErrNoTerm
  | ErrNotImplemented
  | ErrTruncatedParametrizedString
  | ErrBadParametrizedString
  | ErrMissingArgs
  | NumError
  deriving DecidableEq, Repr

/-- Outcome of a Go call returning `(value, error)`: a value with a nil error, an error
value, or a run-time panic. -/
inductive Res (ε α : Type) where
  | ok (v : α)
  | error (e : ε)
  | panic
  deriving DecidableEq, Repr

/-! ## Machine integers -/

/-- Reduction of an integer to the range of a 64-bit two's-complement Go `int`. -/
def wrapInt (x : Int) : Int := (x + 2 ^ 63) % 2 ^ 64 - 2 ^ 63

/-- The values of the Go type `int` (64 bits). -/
def IsInt (x : Int) : Prop := -(2 ^ 63) ≤ x ∧ x < 2 ^ 63

instance (x : Int) : Decidable (IsInt x) := by unfold IsInt; infer_instance

/-! ## Operand stack -/

/-- An operand or an argument: the dynamic types `int` and `string` accepted by
`paramStack.push`. -/
inductive Value where
  | int (n : Int)
  | str (s : List Nat)
  deriving DecidableEq, Repr

/-- The operand stack `paramStack`. The head of the list is the top of the stack, that is
the last element of the Go slice. -/
structure paramStack where
  stack : List Value
  deriving DecidableEq, Repr

/-- Go: `p.stack = append(p.stack, arg)`. -/
def paramStack.push (p : paramStack) (arg : Value) : paramStack := ⟨arg :: p.stack⟩

/-- Go: `pushBool`, pushing 1 for true and 0 for false. -/
def paramStack.pushBool (p : paramStack) (arg : Bool) : paramStack :=
  if arg then p.push (.int 1) else p.push (.int 0)

/-- Go: `pop`; `none` is the index-out-of-range panic on an empty stack. -/
def paramStack.pop (p : paramStack) : Option (Value × paramStack) :=
  match p.stack with
  | [] => none
  | x :: s => some (x, ⟨s⟩)

/-- Go: `popInt`, `p.pop().(int)`; `none` is a panic (empty stack or failed assertion). -/
def paramStack.popInt (p : paramStack) : Option (Int × paramStack) :=
  match p.pop with
  | some (.int n, s) => some (n, s)
  | _ => none

/-- Go: `popBool`, `p.popInt() != 0`. -/
def paramStack.popBool (p : paramStack) : Option (Bool × paramStack) :=
  match p.popInt with
  | some (n, s) => some (decide (n ≠ 0), s)
  | none => none

/-- Go: `popString`, `p.pop().(string)`. -/
def paramStack.popString (p : paramStack) : Option (List Nat × paramStack) :=
  match p.pop with
  | some (.str x, s) => some (x, s)
  | _ => none

/-! ## Model of `fmt.Sprintf` for one operand -/

/-- ASCII digits of a natural number in the given base, lower case. -/
def natDigits (base n : Nat) : List Nat := (Nat.toDigits base n).map Char.toNat

/-- Upper-case variant of an ASCII byte (used by the conversion X). -/
def upperByte (c : Nat) : Nat := if 97 ≤ c ∧ c ≤ 122 then c - 32 else c

/-- Signed integer in the given base: a minus sign followed by the magnitude. -/
def fmtInt (base : Nat) (upper : Bool) (n : Int) : List Nat :=
  let ds := natDigits base n.natAbs
  let ds := if upper then ds.map upperByte else ds
  if n < 0 then 45 :: ds else ds

/-- Decimal text of an integer, as printed by the conversion d. -/
def decimal (n : Int) : List Nat := fmtInt 10 false n

/-- UTF-8 encoding of a rune as done by the conversion c: values outside the Unicode
range and surrogates are replaced by U+FFFD. -/
def encodeRune (n : Int) : List Nat :=
  if n < 0 ∨ 1114111 < n then [239, 191, 189]
  else
    let r := n.toNat
    if r < 128 then [r]
    else if r < 2048 then [192 + r / 64, 128 + r % 64]
    else if 55296 ≤ r ∧ r ≤ 57343 then [239, 191, 189]
    else if r < 65536 then [224 + r / 4096, 128 + r / 64 % 64, 128 + r % 64]
    else [240 + r / 262144, 128 + r / 4096 % 64, 128 + r / 64 % 64, 128 + r % 64]

/-- Two hexadecimal digits per byte, the rendering of a string by the conversions x, X. -/
def hexBytes (upper : Bool) (s : List Nat) : List Nat :=
  s.flatMap fun b =>
    let ds := natDigits 16 (b / 16 % 16) ++ natDigits 16 (b % 16)
    if upper then ds.map upperByte else ds

/-- The text `%!verb(type=value)` printed for a verb that does not apply to the operand. -/
def badVerb (verb : Nat) (v : Value) : List Nat :=
  [37, 33, verb, 40] ++
    (match v with
     | .int n => [105, 110, 116, 61] ++ decimal n
     | .str s => [115, 116, 114, 105, 110, 103, 61] ++ s) ++ [41]

/-- Go: `fmt.Sprintf("%" + verb, v)` for a bare conversion letter among d o x X s c. -/
def bareVerb (verb : Nat) (v : Value) : List Nat :=
  match v with
  | .int n =>
    if verb = 100 then decimal n
    else if verb = 111 then fmtInt 8 false n
    else if verb = 120 then fmtInt 16 false n
    else if verb = 88 then fmtInt 16 true n
    else if verb = 99 then encodeRune n
    else badVerb verb v
  | .str s =>
    if verb = 115 then s
    else if verb = 120 then hexBytes false s
    else if verb = 88 then hexBytes true s
    else badVerb verb v

/-- Go: `fmt.Sprintf("%" + spec, v)`, where `spec` ends in a conversion letter. A bare
conversion letter is modelled exactly; the rendering of a conversion with flags, width
or precision belongs to the standard library and is the parameter `lib`. -/
def Sprintf (lib : List Nat → Value → List Nat) (spec : List Nat) (v : Value) : List Nat :=
  match spec with
  | [verb] => bareVerb verb v
  | _ => lib spec v

/-! ## The template interpreter `Unescape` -/

/-- The local variables of `Unescape` other than the position: the output buffer, the
operand stack and the argument slice (which `%i` mutates). -/
structure State where
  buf : List Nat
  stack : paramStack
  args : List Value
  deriving DecidableEq, Repr

/-- Result of one escape: continue the main loop at a later position, or return. -/
inductive Step where
  | cont (rest : List Nat) (st : State)
  | ret (r : Res Err (List Nat))
  deriving DecidableEq, Repr

/-- The conversion letters that end a printf-like escape. -/
def isVerb (c : Nat) : Bool :=
  c = 100 || c = 111 || c = 120 || c = 88 || c = 115 || c = 99

/-- The bytes that start a printf-like escape (first `case` list of the switch). -/
def isPrintfStart (c : Nat) : Bool :=
  (48 ≤ c && c ≤ 57) || c = 58 || c = 35 || c = 32 || isVerb c

/-- The loop `printfLikeInner`: from position `i` search the first conversion letter at
`j`; the result is `tpl[i:j+1]` and `tpl[j+1:]`, or `none` when `done` stays false. -/
def scanVerb : List Nat → Option (List Nat × List Nat)
  | [] => none
  | c :: cs =>
    if isVerb c then some ([c], cs)
    else match scanVerb cs with
      | some (spec, rest) => some (c :: spec, rest)
      | none => none

/-- Outcome of the loop `literalNumberInner`. -/
inductive NumScan where
  | closed (n : Int) (rest : List Nat)
  | eof (n : Int)
  | bad
  deriving DecidableEq, Repr

/-- The loop `literalNumberInner` over `tpl[i+1:]`: digits accumulate in `n` (a Go int),
a closing brace ends the literal, any other byte is an error; when the template ends
first the loop just stops. -/
def literalNumberInner : Int → List Nat → NumScan
  | n, [] => .eof n
  | n, c :: cs =>
    if 48 ≤ c ∧ c ≤ 57 then literalNumberInner (wrapInt (n * 10 + ((c - 48 : Nat) : Int))) cs
    else if c = 125 then .closed n cs
    else .bad

/-- The scan of the cases t (condition false) and e over `tpl[i+1:]`: the first
position where a percent sign is followed by a semicolon, or by e when `elseOk`; the
result is the template after these two bytes, `none` when `ok` stays false. -/
def skipTo (elseOk : Bool) : List Nat → Option (List Nat)
  | a :: b :: rest =>
    if a = 37 ∧ (b = 59 ∨ (elseOk = true ∧ b = 101)) then some rest
    else skipTo elseOk (b :: rest)
  | _ => none

/-- The case i: with two or more arguments `args[1]` then `args[0]` are incremented,
with one argument `args[0]`; `none` is the panic of a failed `.(int)` assertion. -/
def increment (args : List Value) : Option (List Value) :=
  match args with
  | [] => some []
  | [.int n] => some [.int (wrapInt (n + 1))]
  | [.str _] => none
  | _ :: .str _ :: _ => none
  | .str _ :: .int _ :: _ => none
  | .int n :: .int m :: more => some (.int (wrapInt (n + 1)) :: .int (wrapInt (m + 1)) :: more)

/-- Go: `strconv.Atoi` on the one-byte string `tpl[i:i+1]`: defined on a digit only. -/
def atoi1 (c : Nat) : Option Nat := if 48 ≤ c ∧ c ≤ 57 then some (c - 48) else none

/-- Pop two ints and push `f first second`, where `first` is popped first. -/
def binop (st : State) (rest : List Nat) (f : Int → Int → Option Value) : Step :=
  match st.stack.popInt with
  | none => .ret .panic
  | some (x, s1) =>
    match s1.popInt with
    | none => .ret .panic
    | some (y, s2) =>
      match f x y with
      | none => .ret .panic
      | some v => .cont rest { st with stack := s2.push v }

/-- Value pushed by `pushBool`. -/
def boolValue (b : Bool) : Value := if b then .int 1 else .int 0

/-- The printf-like case: `c :: rest` is `tpl[i:]`. -/
def escPrintf (lib : List Nat → Value → List Nat) (c : Nat) (rest : List Nat) (st : State) :
    Step :=
  match scanVerb (c :: rest) with
  | none => .ret (.error .ErrTruncatedParametrizedString)
  | some (spec, rest1) =>
    match st.stack.pop with
    | none => .ret .panic
    | some (v, s) => .cont rest1 { st with buf := st.buf ++ Sprintf lib spec v, stack := s }

/-- The case p: push `args[n-1]` for the digit `n` after the p; `n = 0` indexes the
argument slice at -1, which panics. -/
def escParam (rest : List Nat) (st : State) : Step :=
  match rest with
  | [] => .ret (.error .ErrTruncatedParametrizedString)
  | d :: rest1 =>
    match atoi1 d with
    | none => .ret (.error .NumError)
    | some n =>
      if n > st.args.length then .ret (.error .ErrMissingArgs)
      else match n with
        | 0 => .ret .panic
        | k + 1 =>
          match st.args.get? k with
          | none => .ret .panic
          | some a => .cont rest1 { st with stack := st.stack.push a }

/-- The case of a quoted character: push the byte after the quote, then require the
closing quote. -/
def escChar (rest : List Nat) (st : State) : Step :=
  match rest with
  | x :: q :: rest1 =>
    if q ≠ 39 then .ret (.error .ErrBadParametrizedString)
    else .cont rest1 { st with stack := st.stack.push (.int x) }
  | _ => .ret (.error .ErrTruncatedParametrizedString)

/-- The case of a literal number in braces. When the template ends before a closing
brace, `i` is unchanged and the main loop goes on right after the opening brace. -/
def escLiteral (rest : List Nat) (st : State) : Step :=
  match literalNumberInner 0 rest with
  | .bad => .ret (.error .ErrBadParametrizedString)
  | .closed n rest1 => .cont rest1 { st with stack := st.stack.push (.int n) }
  | .eof n => .cont rest { st with stack := st.stack.push (.int n) }

/-- The case l: `stack.push(len(stack.popString()))`. -/
def escStrlen (rest : List Nat) (st : State) : Step :=
  match st.stack.popString with
  | none => .ret .panic
  | some (x, s) => .cont rest { st with stack := s.push (.int x.length) }

/-- The case A: `stack.pushBool(stack.popBool() && stack.popBool())`; the second pop is
not evaluated when the first operand is false. -/
def escAnd (rest : List Nat) (st : State) : Step :=
  match st.stack.popBool with
  | none => .ret .panic
  | some (false, s) => .cont rest { st with stack := s.pushBool false }
  | some (true, s) =>
    match s.popBool with
    | none => .ret .panic
    | some (y, s2) => .cont rest { st with stack := s2.pushBool y }

/-- The case O: `stack.pushBool(stack.popBool() || stack.popBool())`; the second pop is
not evaluated when the first operand is true. -/
def escOr (rest : List Nat) (st : State) : Step :=
  match st.stack.popBool with
  | none => .ret .panic
  | some (true, s) => .cont rest { st with stack := s.pushBool true }
  | some (false, s) =>
    match s.popBool with
    | none => .ret .panic
    | some (y, s2) => .cont rest { st with stack := s2.pushBool y }

/-- The case of logical negation: `stack.pushBool(!stack.popBool())`. -/
def escNot (rest : List Nat) (st : State) : Step :=
  match st.stack.popBool with
  | none => .ret .panic
  | some (x, s) => .cont rest { st with stack := s.pushBool (!x) }

/-- The case of bitwise complement: `stack.push(^stack.popInt())`. -/
def escCompl (rest : List Nat) (st : State) : Step :=
  match st.stack.popInt with
  | none => .ret .panic
  | some (x, s) => .cont rest { st with stack := s.push (.int (-x - 1)) }

/-- The case i. -/
def escIncr (rest : List Nat) (st : State) : Step :=
  match increment st.args with
  | none => .ret .panic
  | some args1 => .cont rest { st with args := args1 }

/-- The case e, also reached by fallthrough from t with `elseOk` set. -/
def escElse (elseOk : Bool) (rest : List Nat) (st : State) : Step :=
  match skipTo elseOk rest with
  | none => .ret (.error .ErrBadParametrizedString)
  | some rest1 => .cont rest1 st

/-- The case t: pop the condition; when true go on in place, when false fall through
to the scan of case e. -/
def escThen (rest : List Nat) (st : State) : Step :=
  match st.stack.popBool with
  | none => .ret .panic
  | some (true, s) => .cont rest { st with stack := s }
  | some (false, s) => escElse true rest { st with stack := s }

/-- The `case` labels of the `switch tpl[i]`: one constructor per case body, `other`
for a byte that matches no case. -/
inductive Case where
  | percent | printfLike | param | notImplemented | quote | brace | strlen
  | add | sub | mul | div | mod | bitAnd | bitOr | bitXor
  | eq | lt | gt | logAnd | logOr | logNot | compl | incr | nop | thenCase | elseCase
  | other
  deriving DecidableEq, Repr

/-- Selection of the case of `switch tpl[i]` for the byte `c`. -/
def caseOf (c : Nat) : Case :=
  if c = 37 then .percent
  else if isPrintfStart c then .printfLike
  else if c = 112 then .param
  else if c = 80 ∨ c = 103 then .notImplemented
  else if c = 39 then .quote
  else if c = 123 then .brace
  else if c = 108 then .strlen
  else if c = 43 then .add
  else if c = 45 then .sub
  else if c = 42 then .mul
  else if c = 47 then .div
  else if c = 109 then .mod
  else if c = 38 then .bitAnd
  else if c = 124 then .bitOr
  else if c = 94 then .bitXor
  else if c = 61 then .eq
  else if c = 60 then .lt
  else if c = 62 then .gt
  else if c = 65 then .logAnd
  else if c = 79 then .logOr
  else if c = 33 then .logNot
  else if c = 126 then .compl
  else if c = 105 then .incr
  else if c = 63 ∨ c = 59 then .nop
  else if c = 116 then .thenCase
  else if c = 101 then .elseCase
  else .other

/-- The body of the `switch tpl[i]` executed when `isParam` was set: `c` is `tpl[i]`,
`rest` is `tpl[i+1:]`. The result gives the state and the position at which the main
loop continues (after its own `i++`), or the value returned. A byte matching no case
is dropped. In the binary operators the first function argument is the operand popped
first. -/
def escape (lib : List Nat → Value → List Nat) (c : Nat) (rest : List Nat) (st : State) :
    Step :=
  match caseOf c with
  | .percent => .cont rest { st with buf := st.buf ++ [37] }
  | .printfLike => escPrintf lib c rest st
  | .param => escParam rest st
  | .notImplemented => .ret (.error .ErrNotImplemented)
  | .quote => escChar rest st
  | .brace => escLiteral rest st
  | .strlen => escStrlen rest st
  | .add => binop st rest fun x y => some (.int (wrapInt (x + y)))
  | .sub => binop st rest fun x y => some (.int (wrapInt (wrapInt (-x) + y)))
  | .mul => binop st rest fun x y => some (.int (wrapInt (x * y)))
  | .div => binop st rest fun n1 n2 =>
      if n1 = 0 then none else some (.int (wrapInt (n2.tdiv n1)))
  | .mod => binop st rest fun n1 n2 => if n1 = 0 then none else some (.int (n2.tmod n1))
  | .bitAnd => binop st rest fun x y => some (.int (Int.land x y))
  | .bitOr => binop st rest fun x y => some (.int (Int.lor x y))
  | .bitXor => binop st rest fun x y => some (.int (Int.xor x y))
  | .eq => binop st rest fun x y => some (boolValue (decide (x = y)))
  | .lt => binop st rest fun x y => some (boolValue (decide (x > y)))
  | .gt => binop st rest fun x y => some (boolValue (decide (x < y)))
  | .logAnd => escAnd rest st
  | .logOr => escOr rest st
  | .logNot => escNot rest st
  | .compl => escCompl rest st
  | .incr => escIncr rest st
  | .nop => .cont rest st
  | .thenCase => escThen rest st
  | .elseCase => escElse false rest st
  | .other => .cont rest st

/-- The main loop of `Unescape`, one iteration of `for i := 0; i < len(tpl); i++` per
unit of fuel: the list is `tpl[i:]`, the flag is `isParam`. `none` means that the fuel
ran out before the loop ended. -/
def loop (lib : List Nat → Value → List Nat) :
    Nat → List Nat → Bool → State → Option (Res Err (List Nat))
  | 0, _, _, _ => none
  | _ + 1, [], _, st => some (.ok st.buf)
  | fuel + 1, c :: rest, false, st =>
    if c = 37 then loop lib fuel rest true st
    else loop lib fuel rest false { st with buf := st.buf ++ [c] }
  | fuel + 1, c :: rest, true, st =>
    match escape lib c rest st with
    | .cont rest1 st1 => loop lib fuel rest1 false st1
    | .ret r => some r

/-- Go: `Unescape(tpl, args...)`. Every iteration of the loop consumes at least one byte
of the template, so `len(tpl) + 1` units of fuel are enough (`Unescape_isSome`). -/
def Unescape (lib : List Nat → Value → List Nat) (tpl : List Nat) (args : List Value) :
    Option (Res Err (List Nat)) :=
  loop lib (tpl.length + 1) tpl false ⟨[], ⟨[]⟩, args⟩

/-- The loop started with exactly the fuel that the remaining bytes require. -/
def run (lib : List Nat → Value → List Nat) (rest : List Nat) (isParam : Bool) (st : State) :
    Option (Res Err (List Nat)) :=
  loop lib (rest.length + 1) rest isParam st

/-- The bytes of an ASCII string literal. -/
def bytes (s : String) : List Nat := s.toList.map Char.toNat

/-- A formatter for flagged conversions that prints nothing, used in concrete runs. -/
def noLib : List Nat → Value → List Nat := fun _ _ => []

/-! ## The decoder `load1` -/

/-- The error wrapped in an `ErrBadThing`: the two errors of `io.ReadFull` and
`binary.Read` on a short file, the magic error built with `fmt.Errorf` (with the value
found), and the error of a names section without final NUL. -/
inductive ReadErr where
  | EOF
  | ErrUnexpectedEOF
  | badMagic (got : Int)
  | missingNull
  deriving DecidableEq, Repr

/-- Go: `type ErrBadThing struct`. -/
structure ErrBadThing where
  Filename : String
  Thing : String
  Err : ReadErr
  deriving DecidableEq, Repr

/-- Go: `type TermInfo struct`, without the field `tty`, which `load1` leaves unset. The
map `Strings` is the list of its entries in the order of insertion, which is the order
of increasing index. -/
structure TermInfo where
  Names : List (List Nat)
  Booleans : List Bool
  Numbers : List Int
  BigNumbers : List Int
  Strings : List (Nat × List Nat)
  deriving DecidableEq, Repr

/-- Go: `io.ReadFull` into a buffer of `n` bytes, on the rest `r` of the file: the bytes
read and the new rest. Nothing is read for `n = 0`; otherwise an empty rest gives `EOF`
and a rest shorter than `n` gives `ErrUnexpectedEOF`. -/
def readFull (n : Nat) (r : List Nat) : Except ReadErr (List Nat × List Nat) :=
  if n = 0 then .ok ([], r)
  else if r = [] then .error .EOF
  else if r.length < n then .error .ErrUnexpectedEOF
  else .ok (r.take n, r.drop n)

/-- The signed value of a 16-bit word. -/
def toInt16 (u : Nat) : Int := if u % 65536 < 32768 then (u % 65536 : Nat) else (u % 65536 : Nat) - 65536

/-- The signed value of a 32-bit word. -/
def toInt32 (u : Nat) : Int :=
  if u % 4294967296 < 2147483648 then (u % 4294967296 : Nat) else (u % 4294967296 : Nat) - 4294967296

/-- Go: the little-endian decoding done by `binary.Read` into a `[]int16`. -/
def decodeInt16s : List Nat → List Int
  | lo :: hi :: rest => toInt16 (lo + 256 * hi) :: decodeInt16s rest
  | _ => []

/-- Go: the little-endian decoding done by `binary.Read` into a `[]int32`. -/
def decodeInt32s : List Nat → List Int
  | b0 :: b1 :: b2 :: b3 :: rest =>
    toInt32 (b0 + 256 * b1 + 65536 * b2 + 16777216 * b3) :: decodeInt32s rest
  | _ => []

/-- Go: `strings.Split(s, sep)` for a one-byte separator. -/
def split (sep : Nat) : List Nat → List (List Nat)
  | [] => [[]]
  | c :: cs =>
    if c = sep then [] :: split sep cs
    else match split sep cs with
      | [] => [[c]]
      | w :: ws => (c :: w) :: ws

/-- The position of the first NUL byte, as found by the inner loop over `strTable[idx:]`. -/
def nulIndex : List Nat → Option Nat
  | [] => none
  | b :: bs => if b = 0 then some 0 else (nulIndex bs).map (· + 1)

/-- The loop over `strIndexes`, from index `i` on: an offset -1 adds no entry; any other
offset `idx` selects `strTable[idx : idx+w]`, where `w` is the position of the first NUL
in `strTable[idx:]` (0 when there is none). `none` is the panic of slicing with an offset
that is negative or larger than the table. -/
def loadStrings (strTable : List Nat) : Nat → List Int → Option (List (Nat × List Nat))
  | _, [] => some []
  | i, idx :: rest =>
    if idx = -1 then loadStrings strTable (i + 1) rest
    else if idx < 0 ∨ (strTable.length : Int) < idx then none
    else
      let tail := strTable.drop idx.toNat
      let w := (nulIndex tail).getD 0
      match loadStrings strTable (i + 1) rest with
      | none => none
      | some m => some ((i, tail.take w) :: m)

/-- Go: `load1`, from the point where the file `filename` has been opened: `file` is its
content. The six header words are `h0` to `h5`; 282 is octal 0432 and 542 is octal
01036. A negative length given to `make` and the index `header[1]-1` of an empty names
section panic. -/
def load1 (filename : String) (file : List Nat) : Res ErrBadThing TermInfo :=
  match readFull 12 file with
  | .error e => .error ⟨filename, "header", e⟩
  | .ok (hdr, r0) =>
    let header := decodeInt16s hdr
    let h0 := header.getD 0 0
    let h1 := header.getD 1 0
    let h2 := header.getD 2 0
    let h3 := header.getD 3 0
    let h4 := header.getD 4 0
    let h5 := header.getD 5 0
    if h0 ≠ 282 ∧ h0 ≠ 542 then .error ⟨filename, "magic", .badMagic h0⟩
    else
      let isBig := decide (h0 = 542)
      if h1 < 0 then .panic
      else match readFull h1.toNat r0 with
      | .error e => .error ⟨filename, "names section", e⟩
      | .ok (rawNames, r1) =>
        if h1 - 1 < 0 then .panic
        else match rawNames.get? (h1 - 1).toNat with
        | none => .panic
        | some last =>
          if last ≠ 0 then .error ⟨filename, "names section", .missingNull⟩
          else
            let names := split 124 (rawNames.take (h1 - 1).toNat)
            if h2 < 0 then .panic
            else match readFull h2.toNat r1 with
            | .error e => .error ⟨filename, "booleans section", e⟩
            | .ok (rawBools, r2) =>
              let booleans := rawBools.map fun b => decide (b = 1)
              let r3 := r2.drop (toInt16 ((h1 + h2) % 65536).toNat % 2).toNat
              if h3 < 0 then .panic
              else match readFull ((if isBig then 4 else 2) * h3.toNat) r3 with
              | .error e => .error ⟨filename, "numbers section", e⟩
              | .ok (rawNums, r4) =>
                if h4 < 0 then .panic
                else match readFull (2 * h4.toNat) r4 with
                | .error e => .error ⟨filename, "strings section", e⟩
                | .ok (rawIdx, r5) =>
                  if h5 < 0 then .panic
                  else match readFull h5.toNat r5 with
                  | .error e => .error ⟨filename, "strings table", e⟩
                  | .ok (strTable, _) =>
                    match loadStrings strTable 0 (decodeInt16s rawIdx) with
                    | none => .panic
                    | some strings =>
                      .ok { Names := names
                            Booleans := booleans
                            Numbers := if isBig then [] else decodeInt16s rawNums
                            BigNumbers := if isBig then decodeInt32s rawNums else []
                            Strings := strings }

/-! ## The file format, as the specification describes it -/

/-- Little-endian bytes of a 16-bit two's-complement word. -/
def le16 (v : Int) : List Nat :=
  let u := (v % 65536).toNat
  [u % 256, u / 256]

/-- Little-endian bytes of a 32-bit two's-complement word. -/
def le32 (v : Int) : List Nat :=
  let u := (v % 4294967296).toNat
  [u % 256, u / 256 % 256, u / 65536 % 256, u / 16777216]

/-- The names joined by the separator byte. -/
def joinWith (sep : Nat) : List (List Nat) → List Nat
  | [] => []
  | [n] => n
  | n :: rest => n ++ sep :: joinWith sep rest

/-- The names section: the aliases joined by a vertical bar, then a NUL. -/
def namesSection (names : List (List Nat)) : List Nat := joinWith 124 names ++ [0]

/-- The booleans section: one byte per flag, 1 for true. -/
def boolsSection (bools : List Bool) : List Nat := bools.map fun b => if b then 1 else 0

/-- The string table: the present templates in index order, each followed by a NUL. -/
def stringTable : List (Option (List Nat)) → List Nat
  | [] => []
  | none :: r => stringTable r
  | some t :: r => t ++ 0 :: stringTable r

/-- The string offsets: -1 for an absent template, else the position of the template in
the string table, `off` being the position of the next template. -/
def stringOffsets : Nat → List (Option (List Nat)) → List Int
  | _, [] => []
  | off, none :: r => -1 :: stringOffsets off r
  | off, some t :: r => (off : Int) :: stringOffsets (off + t.length + 1) r

/-- The entries of the strings map: the present indices with their templates. -/
def stringEntries : Nat → List (Option (List Nat)) → List (Nat × List Nat)
  | _, [] => []
  | i, none :: r => stringEntries (i + 1) r
  | i, some t :: r => (i, t) :: stringEntries (i + 1) r

/-- The serialization of a capability table: header of six 16-bit words, names,
booleans, one pad byte iff the two lengths add up to an odd number, numbers (32-bit when
`big`, the magic then being octal 01036, else 16-bit with magic octal 0432), string
offsets, string table. -/
def encode (big : Bool) (names : List (List Nat)) (bools : List Bool) (nums : List Int)
    (strs : List (Option (List Nat))) : List Nat :=
  let ns := namesSection names
  let bs := boolsSection bools
  let tbl := stringTable strs
  (le16 (if big then 542 else 282) ++ le16 ns.length ++ le16 bs.length ++ le16 nums.length ++
      le16 strs.length ++ le16 tbl.length) ++
    (ns ++ (bs ++ ((if (ns.length + bs.length) % 2 = 1 then [0] else []) ++
      ((if big then nums.flatMap le32 else nums.flatMap le16) ++
        ((stringOffsets 0 strs).flatMap le16 ++ tbl)))))

/-- The natural number denoted by a string of ASCII decimal digits, read from the
accumulator `n` on. -/
def digitsFrom (n : Nat) (ds : List Nat) : Nat := ds.foldl (fun n c => n * 10 + (c - 48)) n

/-- The natural number denoted by a string of ASCII decimal digits. -/
def digitsValue (ds : List Nat) : Nat := digitsFrom 0 ds

/-! ## Outcomes of the interpreter -/

/-- The outcomes that `Unescape` can have: output, one of the four errors of the
interpreter, the error of `strconv.Atoi`, or a panic. -/
def IsOutcome (r : Res Err (List Nat)) : Prop :=
  r = .panic ∨ (∃ out, r = .ok out) ∨ r = .error .ErrTruncatedParametrizedString ∨
    r = .error .ErrBadParametrizedString ∨ r = .error .ErrNotImplemented ∨
    r = .error .ErrMissingArgs ∨ r = .error .NumError

/-! ## Layout of a file, for the statements about `load1` -/

/-- The header word number `k` of a file: the little-endian 16-bit word at byte `2 * k`. -/
def headerWord (file : List Nat) (k : Nat) : Int := (decodeInt16s (file.take 12)).getD k 0

/-- The string offsets of a file, read at their place in the layout: after the 12 header
bytes, the names, the booleans, the pad byte and the numbers. -/
def fileOffsets (file : List Nat) : List Int :=
  let h1 := (headerWord file 1).toNat
  let h2 := (headerWord file 2).toNat
  let h3 := (headerWord file 3).toNat
  let h4 := (headerWord file 4).toNat
  let w := if headerWord file 0 = 542 then 4 else 2
  decodeInt16s (List.take (2 * h4) (List.drop (w * h3) (List.drop ((h1 + h2) % 2)
    (List.drop h2 (List.drop h1 (List.drop 12 file))))))

/-- A file that ends before its string table, for a concrete run: magic 0432, a names
section of 2 bytes, 1 boolean, a pad byte, no numbers, the string offsets 0 and 5, and
a declared string table of 9 bytes that is missing. -/
def shortFile : List Nat := [26, 1, 2, 0, 1, 0, 0, 0, 2, 0, 9, 0, 120, 0, 1, 0, 0, 0, 5, 0]

/-! ## The paced writer and the color helper -/

/-- The capability indices that `pad` and `Color` use. They are constants of the
generated file `termh.go`, which is not part of the sources at hand, and are therefore
parameters of the model. -/
structure Indices where
  XonXoff : Nat
  NoPadChar : Nat
  PaddingBaudRate : Nat
  MaxColors : Nat
  PadChar : Nat
  deriving DecidableEq, Repr

/-- An assignment of the indices for concrete runs: the positions of these capabilities
in term(5). -/
def stdIndices : Indices :=
  { XonXoff := 20, NoPadChar := 25, PaddingBaudRate := 5, MaxColors := 13, PadChar := 104 }

/-- A table for concrete runs of `pad`: 26 booleans, all false, and six 16-bit numbers,
the last of which is the padding baud rate. -/
def padTable (baud : Int) : TermInfo :=
  { Names := [bytes "xterm"]
    Booleans := List.replicate 26 false
    Numbers := [80, 8, 24, -1, -1, baud]
    BigNumbers := []
    Strings := [] }

/-- What one call of `pad` does: return at once (`skip`), sleep for `ms` milliseconds,
write `count` copies of the pad sequence, or panic on an index out of range. -/
inductive PadResult where
  | skip
  | sleep (ms : Int)
  | write (padSeq : List Nat) (count : Int)
  | panic
  deriving DecidableEq, Repr

/-- Go: the map lookup `ti.Strings[idx]`, nil (empty) for a missing key. -/
def TermInfo.string (ti : TermInfo) (idx : Nat) : List Nat :=
  match ti.Strings.lookup idx with
  | some s => s
  | none => []

/-- Go: `minBaudRate` in `pad`, taken from `BigNumbers` when that slice is not empty and
from `Numbers` otherwise; `none` is the panic of an index out of range. -/
def TermInfo.minBaudRate (ix : Indices) (ti : TermInfo) : Option Int :=
  if ti.BigNumbers.length > 0 then ti.BigNumbers[ix.PaddingBaudRate]?
  else ti.Numbers[ix.PaddingBaudRate]?

/-- Go: the part of `pad` after the first `if`, entered with the output speed known so
far (-1 when unknown). `speed` is the result of the terminal query `GetSpeed`, `none`
when `termios.GetAttr` fails. The second operand of `||` is not evaluated when the first
is true. -/
def TermInfo.padEmit (ix : Indices) (ti : TermInfo) (speed : Option Int) (n : Int)
    (ospeed : Int) : PadResult :=
  match ti.Booleans[ix.NoPadChar]? with
  | none => .panic
  | some true => .sleep n
  | some false =>
    match ti.Booleans[ix.XonXoff]? with
    | none => .panic
    | some true => .sleep n
    | some false =>
      let ospeed1 := if ospeed < 0 then speed.getD ospeed else ospeed
      if ospeed1 < 0 then .sleep n
      else
        let padSeq := if (ti.string ix.PadChar).length = 0 then [0] else ti.string ix.PadChar
        .write padSeq ((wrapInt (n * ospeed1)).tdiv 9000 |>.tdiv padSeq.length)

/-- Go: `(ti *TermInfo).pad(n, mandatory)`. The terminal is queried at most once in a
call: a marker that is not mandatory gets past the first `if` only with a speed that is
not negative. -/
def TermInfo.pad (ix : Indices) (ti : TermInfo) (speed : Option Int) (n : Int)
    (mandatory : Bool) : PadResult :=
  if !mandatory then
    match ti.Booleans[ix.XonXoff]? with
    | none => .panic
    | some true => .skip
    | some false =>
      match ti.minBaudRate ix with
      | none => .panic
      | some minBaudRate =>
        if minBaudRate < 0 then .skip
        else
          let ospeed := speed.getD (-1)
          if ospeed < minBaudRate then .skip
          else ti.padEmit ix speed n ospeed
  else ti.padEmit ix speed n (-1)

/-- Go: `(ti *TermInfo).Color(fg, bg)` up to the test `cols <= 0`; the code after that
test (palette lookup and formatting) is the parameter `after`, applied to `cols`. The
result `none` is the panic of an index out of range. -/
def TermInfo.Color (ix : Indices) (ti : TermInfo) (after : Int → Option (List Nat)) :
    Option (List Nat) :=
  if ix.MaxColors ≥ ti.Numbers.length ∧ ix.MaxColors > ti.BigNumbers.length then some []
  else
    let cols := if ti.BigNumbers.length > 0 then ti.BigNumbers[ix.MaxColors]?
      else ti.Numbers[ix.MaxColors]?
    match cols with
    | none => none
    | some c => if c ≤ 0 then some [] else after c

/-! ## The search path -/

/-- Go: `appendSearchPath(path, items...)`. An empty item stands for `/etc/terminfo`; the
inner loop over `path`, which is the path as extended so far, is the membership test. -/
def appendSearchPath : List String → List String → List String
  | path, [] => path
  | path, it :: items =>
    let it1 := if it = "" then "/etc/terminfo" else it
    if it1 ∈ path then appendSearchPath path items
    else appendSearchPath (path ++ [it1]) items

/-- Go: `searchPath`, with the values taken from the environment as parameters: `tiDir`
is `$TERMINFO` or else `$HOME/.terminfo`, `dirs` is the split list of `$TERMINFO_DIRS`,
and `compiledIn` is the variable `CompiledInLocations`. -/
def searchPath (tiDir : String) (dirs compiledIn : List String) : List String :=
  appendSearchPath (appendSearchPath (appendSearchPath (appendSearchPath [] [tiDir]) dirs)
    compiledIn) ["/etc/terminfo"]

/-- An item as the search path takes it: the empty string replaced by `/etc/terminfo`. -/
def orSystemDir (it : String) : String := if it = "" then "/etc/terminfo" else it

/-! ## Causes of a panic in `Unescape` -/

/-- The dynamic type that an escape expects of an operand it pops. -/
inductive Operand where
  | any
  | int
  | str
  deriving DecidableEq, Repr

/-- Whether a value has the expected dynamic type. -/
def Operand.fits : Operand → Value → Bool
  | .any, _ => true
  | .int, .int _ => true
  | .str, .str _ => true
  | _, _ => false

/-- Whether the stack holds operands of the expected types, from the top down. -/
def stackHas : List Operand → List Value → Bool
  | [], _ => true
  | _ :: _, [] => false
  | k :: ks, v :: vs => k.fits v && stackHas ks vs

/-- The operands that the escapes pop: one of any type for a conversion, a string for
l, two integers for a binary operator, one integer for a unary operator and for t. -/
def operands : Case → List Operand
  | .printfLike => [.any]
  | .strlen => [.str]
  | .add | .sub | .mul | .div | .mod | .bitAnd | .bitOr | .bitXor | .eq | .lt | .gt
  | .logAnd | .logOr => [.int, .int]
  | .logNot | .compl | .thenCase => [.int]
  | _ => []

/-- Whether one of the arguments that i increments (the first two) is a string. -/
def incrementsString : List Value → Bool
  | .str _ :: _ => true
  | _ :: .str _ :: _ => true
  | _ => false

/-- The states in which an escape cannot be carried out: a pop from an
empty stack or of an operand of the wrong type (for a conversion only once its
conversion letter is found), a division by zero, an increment of a string. -/
def panicCause (c : Nat) (rest : List Nat) (st : State) : Bool :=
  match caseOf c with
  | .printfLike => (scanVerb (c :: rest)).isSome && !stackHas [.any] st.stack.stack
  | .incr => incrementsString st.args
  | .div | .mod =>
    !stackHas [.int, .int] st.stack.stack || decide (st.stack.stack.head? = some (.int 0))
  | k => !stackHas (operands k) st.stack.stack

/-- The escape p followed by the digit 0. -/
def isParamZero (c : Nat) (rest : List Nat) : Bool :=
  decide (caseOf c = .param) && decide (rest.head? = some 48)

/-- The escapes that the main loop executes, in order, each with the template after
it and the state in which it is executed: the loop of `loop`, recording the arguments of
every call of `escape`. -/
def executed (lib : List Nat → Value → List Nat) :
    Nat → List Nat → Bool → State → List (Nat × List Nat × State)
  | 0, _, _, _ => []
  | _ + 1, [], _, _ => []
  | fuel + 1, c :: rest, false, st =>
    if c = 37 then executed lib fuel rest true st
    else executed lib fuel rest false { st with buf := st.buf ++ [c] }
  | fuel + 1, c :: rest, true, st =>
    (c, rest, st) ::
      match escape lib c rest st with
      | .cont rest1 st1 => executed lib fuel rest1 false st1
      | .ret _ => []

/-- The escapes that `Unescape` executes on a template and arguments. -/
def escapes (lib : List Nat → Value → List Nat) (tpl : List Nat) (args : List Value) :
    List (Nat × List Nat × State) :=
  executed lib (tpl.length + 1) tpl false ⟨[], ⟨[]⟩, args⟩

/-! ## Endings of a decoding, by the layout of the file -/

/-- The three ways in which a decoding ends: a table is returned, an ErrBadThing with the
given Thing is returned, or the run aborts with a panic. -/
inductive Ending where
  | table
  | failed (thing : String)
  | abort
  deriving DecidableEq, Repr

/-- The way in which a result of `load1` ends. -/
def ending : Res ErrBadThing TermInfo → Ending
  | .ok _ => .table
  | .error e => .failed e.Thing
  | .panic => .abort

/-- The width in bytes of a number, as declared by the magic. -/
def numberWidth (file : List Nat) : Nat := if headerWord file 0 = 542 then 4 else 2

/-- The offset in the file at which the declared names section ends. -/
def namesEnd (file : List Nat) : Nat := 12 + (headerWord file 1).toNat

/-- The offset at which the declared booleans section ends. -/
def boolsEnd (file : List Nat) : Nat := namesEnd file + (headerWord file 2).toNat

/-- The offset at which the declared numbers section ends; it starts after a pad byte
when the names and booleans sections together have an odd length. -/
def numbersEnd (file : List Nat) : Nat :=
  boolsEnd file + ((headerWord file 1).toNat + (headerWord file 2).toNat) % 2 +
    numberWidth file * (headerWord file 3).toNat

/-- The offset at which the declared section of string offsets ends. -/
def offsetsEnd (file : List Nat) : Nat := numbersEnd file + 2 * (headerWord file 4).toNat

/-- The offset at which the declared string table ends. -/
def tableEnd (file : List Nat) : Nat := offsetsEnd file + (headerWord file 5).toNat

/-- The ending of a decoding as the header and the length of the file determine it: the
first test that applies, in the order of the sections. A section is missing when its
declared length is positive and the file ends before the end of the section. -/
def expectedEnding (file : List Nat) : Ending :=
  if file.length < 12 then .failed "header"
  else if headerWord file 0 ≠ 282 ∧ headerWord file 0 ≠ 542 then .failed "magic"
  else if headerWord file 1 < 0 then .abort
  else if file.length < namesEnd file then .failed "names section"
  else if file[namesEnd file - 1]? ≠ some 0 then .failed "names section"
  else if headerWord file 2 < 0 then .abort
  else if file.length < boolsEnd file then .failed "booleans section"
  else if headerWord file 3 < 0 then .abort
  else if 0 < headerWord file 3 ∧ file.length < numbersEnd file then .failed "numbers section"
  else if headerWord file 4 < 0 then .abort
  else if 0 < headerWord file 4 ∧ file.length < offsetsEnd file then .failed "strings section"
  else if headerWord file 5 < 0 then .abort
  else if 0 < headerWord file 5 ∧ file.length < tableEnd file then .failed "strings table"
  else if ∃ idx ∈ fileOffsets file, idx ≠ -1 ∧ (idx < 0 ∨ headerWord file 5 < idx) then .abort
  else .table

/-! ## Termination of the main loop -/

theorem scanVerb_length {l spec rest : List Nat} (h : scanVerb l = some (spec, rest)) :
    rest.length < l.length := by
  induction l generalizing spec rest with
  | nil => simp [scanVerb] at h
  | cons c cs ih =>
    simp only [scanVerb] at h
    split at h
    · simp only [Option.some.injEq, Prod.mk.injEq] at h
      simp [← h.2]
    · split at h
      · rename_i sp r hs
        simp only [Option.some.injEq, Prod.mk.injEq] at h
        have := ih hs
        simp only [List.length_cons, ← h.2]
        omega
      · simp at h

theorem literalNumberInner_length {l rest : List Nat} {n m : Int}
    (h : literalNumberInner n l = .closed m rest) : rest.length < l.length := by
  induction l generalizing n with
  | nil => simp [literalNumberInner] at h
  | cons c cs ih =>
    simp only [literalNumberInner] at h
    split at h
    · have := ih h
      simp only [List.length_cons]
      omega
    · split at h
      · simp only [NumScan.closed.injEq] at h
        simp [← h.2]
      · simp at h

theorem skipTo_length {e : Bool} {l rest : List Nat} (h : skipTo e l = some rest) :
    rest.length + 2 ≤ l.length := by
  induction l with
  | nil => simp [skipTo] at h
  | cons a t ih =>
    cases t with
    | nil => simp [skipTo] at h
    | cons b r =>
      simp only [skipTo] at h
      split at h
      · simp only [Option.some.injEq] at h
        simp [← h]
      · have := ih h
        simp only [List.length_cons] at this ⊢
        omega

theorem binop_length {st st1 : State} {rest rest1 : List Nat} {f : Int → Int → Option Value}
    (h : binop st rest f = .cont rest1 st1) : rest1.length ≤ rest.length := by
  unfold binop at h
  repeat' split at h
  all_goals simp_all

theorem escElse_length {e : Bool} {rest rest1 : List Nat} {st st1 : State}
    (h : escElse e rest st = .cont rest1 st1) : rest1.length ≤ rest.length := by
  unfold escElse at h
  split at h
  · simp at h
  · rename_i r hr
    simp only [Step.cont.injEq] at h
    have := skipTo_length hr
    rw [← h.1]
    omega

theorem escPrintf_length {lib : List Nat → Value → List Nat} {c : Nat}
    {rest rest1 : List Nat} {st st1 : State}
    (h : escPrintf lib c rest st = .cont rest1 st1) : rest1.length ≤ rest.length := by
  unfold escPrintf at h
  split at h
  · simp at h
  · rename_i spec r hs
    split at h
    · simp at h
    · simp only [Step.cont.injEq] at h
      have := scanVerb_length hs
      simp only [List.length_cons] at this
      rw [← h.1]
      omega

theorem escLiteral_length {rest rest1 : List Nat} {st st1 : State}
    (h : escLiteral rest st = .cont rest1 st1) : rest1.length ≤ rest.length := by
  unfold escLiteral at h
  split at h
  · simp at h
  · rename_i n r hs
    simp only [Step.cont.injEq] at h
    have := literalNumberInner_length hs
    rw [← h.1]
    omega
  · simp only [Step.cont.injEq] at h
    simp [← h.1]

theorem escThen_length {rest rest1 : List Nat} {st st1 : State}
    (h : escThen rest st = .cont rest1 st1) : rest1.length ≤ rest.length := by
  unfold escThen at h
  split at h
  · simp at h
  · simp only [Step.cont.injEq] at h
    simp [← h.1]
  · exact escElse_length h

theorem escape_length {lib : List Nat → Value → List Nat} {c : Nat} {rest rest1 : List Nat}
    {st st1 : State} (h : escape lib c rest st = .cont rest1 st1) :
    rest1.length ≤ rest.length := by
  unfold escape at h
  cases hc : caseOf c <;> simp only [hc] at h
  all_goals try exact binop_length h
  all_goals try exact escElse_length h
  all_goals try exact escPrintf_length h
  all_goals try exact escLiteral_length h
  all_goals try exact escThen_length h
  all_goals try (simp only [Step.cont.injEq, reduceCtorEq] at h)
  all_goals try (obtain ⟨rfl, _⟩ := h; simp)
  all_goals
    first
      | unfold escParam at h
      | unfold escChar at h
      | unfold escStrlen at h
      | unfold escAnd at h
      | unfold escOr at h
      | unfold escNot at h
      | unfold escCompl at h
      | unfold escIncr at h
  all_goals repeat' split at h
  all_goals simp_all
  all_goals omega

/-- The result of the loop does not depend on the fuel once the fuel exceeds the number
of bytes left. -/
theorem loop_fuel (lib : List Nat → Value → List Nat) :
    ∀ (n m : Nat) (rest : List Nat) (p : Bool) (st : State),
      rest.length < n → rest.length < m → loop lib n rest p st = loop lib m rest p st := by
  intro n
  induction n with
  | zero => intro m rest p st h; omega
  | succ n ih =>
    intro m rest p st hn hm
    cases m with
    | zero => omega
    | succ m =>
      cases rest with
      | nil => simp [loop]
      | cons c rest =>
        simp only [List.length_cons] at hn hm
        cases p with
        | false =>
          simp only [loop]
          split
          · exact ih m rest true st (by omega) (by omega)
          · exact ih m rest false _ (by omega) (by omega)
        | true =>
          simp only [loop]
          cases he : escape lib c rest st with
          | ret r => rfl
          | cont rest1 st1 =>
            have := escape_length he
            exact ih m rest1 false st1 (by omega) (by omega)

/-- With more fuel than bytes left the loop ends with a result. -/
theorem loop_isSome (lib : List Nat → Value → List Nat) :
    ∀ (n : Nat) (rest : List Nat) (p : Bool) (st : State),
      rest.length < n → (loop lib n rest p st).isSome = true := by
  intro n
  induction n with
  | zero => intro rest p st h; omega
  | succ n ih =>
    intro rest p st hn
    cases rest with
    | nil => simp [loop]
    | cons c rest =>
      simp only [List.length_cons] at hn
      cases p with
      | false =>
        simp only [loop]
        split
        · exact ih rest true st (by omega)
        · exact ih rest false _ (by omega)
      | true =>
        simp only [loop]
        cases he : escape lib c rest st with
        | ret r => rfl
        | cont rest1 st1 =>
          have := escape_length he
          exact ih rest1 false st1 (by omega)

/-! ## Equations of the main loop -/

theorem Unescape_eq_run (lib : List Nat → Value → List Nat) (tpl : List Nat)
    (args : List Value) : Unescape lib tpl args = run lib tpl false ⟨[], ⟨[]⟩, args⟩ := rfl

theorem run_nil (lib : List Nat → Value → List Nat) (p : Bool) (st : State) :
    run lib [] p st = some (.ok st.buf) := rfl

theorem run_percent (lib : List Nat → Value → List Nat) (rest : List Nat) (st : State) :
    run lib (37 :: rest) false st = run lib rest true st := by
  simp [run, loop]

theorem run_literal (lib : List Nat → Value → List Nat) (c : Nat) (rest : List Nat)
    (st : State) (hc : c ≠ 37) :
    run lib (c :: rest) false st = run lib rest false { st with buf := st.buf ++ [c] } := by
  simp [run, loop, hc]

theorem run_escape (lib : List Nat → Value → List Nat) (c : Nat) (rest : List Nat)
    (st : State) :
    run lib (c :: rest) true st =
      match escape lib c rest st with
      | .cont rest1 st1 => run lib rest1 false st1
      | .ret r => some r := by
  simp only [run, List.length_cons, loop]
  cases he : escape lib c rest st with
  | ret r => rfl
  | cont rest1 st1 =>
    have := escape_length he
    exact loop_fuel lib _ _ rest1 false st1 (by omega) (by omega)

/-- A run of literal bytes is copied to the output. -/
theorem run_literals (lib : List Nat → Value → List Nat) (lit rest : List Nat) (st : State)
    (h : 37 ∉ lit) :
    run lib (lit ++ rest) false st = run lib rest false { st with buf := st.buf ++ lit } := by
  induction lit generalizing st with
  | nil => simp
  | cons c cs ih =>
    simp only [List.mem_cons, not_or] at h
    rw [List.cons_append, run_literal lib c _ st (fun e => h.1 e.symm), ih _ h.2]
    simp

/-- The loop of `Unescape` always ends: the model returns an outcome for every template
and argument list. -/
theorem Unescape_isSome (lib : List Nat → Value → List Nat) (tpl : List Nat)
    (args : List Value) : (Unescape lib tpl args).isSome = true :=
  loop_isSome lib _ tpl false _ (Nat.lt_succ_self _)

/-! ## Machine arithmetic -/

theorem wrapInt_of_isInt {x : Int} (h : IsInt x) : wrapInt x = x := by
  unfold IsInt at h
  unfold wrapInt
  omega

theorem wrapInt_neg_add (a b : Int) : wrapInt (wrapInt (-b) + a) = wrapInt (a - b) := by
  unfold wrapInt
  omega

theorem int_land_comm (a b : Int) : Int.land a b = Int.land b a := by
  cases a <;> cases b <;> simp [Int.land, Nat.land_comm, Nat.lor_comm]

theorem int_lor_comm (a b : Int) : Int.lor a b = Int.lor b a := by
  cases a <;> cases b <;> simp [Int.lor, Nat.land_comm, Nat.lor_comm]

theorem int_xor_comm (a b : Int) : Int.xor a b = Int.xor b a := by
  cases a <;> cases b <;> simp [Int.xor, Nat.xor_comm]

/-! ## Literal templates -/

/-- C1: a template without a percent byte (the empty template included) evaluates, for
every argument list, to exactly its own bytes with a nil error. -/
theorem Unescape_literal (lib : List Nat → Value → List Nat) (tpl : List Nat)
    (args : List Value) (h : 37 ∉ tpl) : Unescape lib tpl args = some (.ok tpl) := by
  have := run_literals lib tpl [] ⟨[], ⟨[]⟩, args⟩ h
  simp only [List.append_nil] at this
  rw [Unescape_eq_run, this, run_nil]
  simp

theorem Unescape_literal_witness :
    37 ∉ bytes "hello world" ∧
      Unescape noLib (bytes "hello world") [.int 1, .str (bytes "x")] =
        some (.ok (bytes "hello world")) :=
  ⟨by decide, Unescape_literal noLib _ _ (by decide)⟩

/-! ## Literal numbers -/

theorem le_digitsFrom (n : Nat) (ds : List Nat) : n ≤ digitsFrom n ds := by
  induction ds generalizing n with
  | nil => simp [digitsFrom]
  | cons c cs ih =>
    have := ih (n * 10 + (c - 48))
    simp only [digitsFrom, List.foldl_cons] at this ⊢
    omega

theorem literalNumberInner_digits (ds rest : List Nat) (n : Nat)
    (hd : ∀ c ∈ ds, 48 ≤ c ∧ c ≤ 57) (h : digitsFrom n ds < 2 ^ 63) :
    literalNumberInner (n : Int) (ds ++ 125 :: rest) = .closed (digitsFrom n ds : Nat) rest := by
  induction ds generalizing n with
  | nil => simp [literalNumberInner, digitsFrom]
  | cons c cs ih =>
    have hc := hd c (List.mem_cons_self _ _)
    have hcs : ∀ x ∈ cs, 48 ≤ x ∧ x ≤ 57 := fun x hx => hd x (List.mem_cons_of_mem _ hx)
    have hstep : digitsFrom n (c :: cs) = digitsFrom (n * 10 + (c - 48)) cs := rfl
    rw [hstep] at h ⊢
    have hle := le_digitsFrom (n * 10 + (c - 48)) cs
    have hw : wrapInt ((n : Int) * 10 + ((c - 48 : Nat) : Int)) = ((n * 10 + (c - 48) : Nat) : Int) := by
      rw [wrapInt_of_isInt]
      · push_cast; rfl
      · unfold IsInt
        constructor <;> omega
    simp only [List.cons_append, literalNumberInner, hc, and_self, if_true, hw]
    exact ih _ hcs h

/-- C3 (amended): for a string of decimal digits (any length, leading zeros allowed) that
denotes a number N below 2^63, the template `%{` digits `}%d` evaluated without
arguments returns the decimal text of N. -/
theorem Unescape_literal_number (lib : List Nat → Value → List Nat) (ds : List Nat)
    (hd : ∀ c ∈ ds, 48 ≤ c ∧ c ≤ 57) (hN : digitsValue ds < 2 ^ 63) :
    Unescape lib (bytes "%\x7b" ++ ds ++ bytes "\x7d%d") [] =
      some (.ok (decimal (digitsValue ds))) := by
  have h := literalNumberInner_digits ds [37, 100] 0 hd hN
  simp only [Nat.cast_zero] at h
  simp [bytes, Unescape_eq_run, run_nil, run_percent, run_escape, escape, caseOf,
    isPrintfStart, isVerb, escPrintf, escLiteral, scanVerb, Sprintf, bareVerb,
    paramStack.push, paramStack.pop, h, digitsValue]

theorem Unescape_literal_number_witness :
    ((∀ c ∈ bytes "0200", 48 ≤ c ∧ c ≤ 57) ∧ digitsValue (bytes "0200") < 2 ^ 63) ∧
      Unescape noLib (bytes "%\x7b" ++ bytes "0200" ++ bytes "\x7d%d") [] =
        some (.ok (decimal (digitsValue (bytes "0200")))) :=
  ⟨⟨by decide, by decide⟩, Unescape_literal_number noLib _ (by decide) (by decide)⟩

set_option maxRecDepth 100000 in
/-- C3 (as stated) fails: the digits 9223372036854775808 denote 2^63, the accumulated Go
int wraps, and the output is the text of -2^63, not the decimal text of 2^63. -/
theorem Unescape_literal_number_overflow :
    (∀ c ∈ bytes "9223372036854775808", 48 ≤ c ∧ c ≤ 57) ∧
      digitsValue (bytes "9223372036854775808") = 2 ^ 63 ∧
      Unescape noLib (bytes "%\x7b" ++ bytes "9223372036854775808" ++ bytes "\x7d%d") [] =
        some (.ok (bytes "-9223372036854775808")) ∧
      Unescape noLib (bytes "%\x7b" ++ bytes "9223372036854775808" ++ bytes "\x7d%d") [] ≠
        some (.ok (decimal (digitsValue (bytes "9223372036854775808")))) := by
  refine ⟨by decide, by decide, by decide, by decide⟩

/-! ## Binary operators -/

/-- C4: for integers a and b pushed by `%p1%p2`, each binary operator prints the decimal
text of `a op b` with the first-pushed operand a on the left: sum, difference a - b,
product, quotient a / b truncated toward zero and the matching remainder (both for b
other than 0), bitwise and, or, xor. The arithmetic is that of the Go type int
(`wrapInt`, the identity on values that fit, see `wrapInt_of_isInt`). -/
theorem Unescape_binop (lib : List Nat → Value → List Nat) (a b : Int) :
    Unescape lib (bytes "%p1%p2%+%d") [.int a, .int b] = some (.ok (decimal (wrapInt (a + b)))) ∧
    Unescape lib (bytes "%p1%p2%-%d") [.int a, .int b] = some (.ok (decimal (wrapInt (a - b)))) ∧
    Unescape lib (bytes "%p1%p2%*%d") [.int a, .int b] = some (.ok (decimal (wrapInt (a * b)))) ∧
    (b ≠ 0 → Unescape lib (bytes "%p1%p2%/%d") [.int a, .int b] =
      some (.ok (decimal (wrapInt (a.tdiv b))))) ∧
    (b ≠ 0 → Unescape lib (bytes "%p1%p2%m%d") [.int a, .int b] =
      some (.ok (decimal (a.tmod b)))) ∧
    Unescape lib (bytes "%p1%p2%&%d") [.int a, .int b] = some (.ok (decimal (Int.land a b))) ∧
    Unescape lib (bytes "%p1%p2%|%d") [.int a, .int b] = some (.ok (decimal (Int.lor a b))) ∧
    Unescape lib (bytes "%p1%p2%^%d") [.int a, .int b] = some (.ok (decimal (Int.xor a b))) := by
  refine ⟨?_, ?_, ?_, ?_, ?_, ?_, ?_, ?_⟩
  · simp [bytes, Unescape_eq_run, run_nil, run_percent, run_literal, run_escape, escape, caseOf,
    isPrintfStart, isVerb, escPrintf, escParam, escChar, escLiteral, escStrlen, escAnd, escOr,
    escNot, escCompl, escIncr, escElse, escThen, binop, boolValue, skipTo, scanVerb,
    literalNumberInner, atoi1, increment, Sprintf, bareVerb, paramStack.push,
    paramStack.pushBool, paramStack.pop, paramStack.popInt, paramStack.popBool,
    paramStack.popString, Int.add_comm]
  · simp [bytes, Unescape_eq_run, run_nil, run_percent, run_literal, run_escape, escape, caseOf,
    isPrintfStart, isVerb, escPrintf, escParam, escChar, escLiteral, escStrlen, escAnd, escOr,
    escNot, escCompl, escIncr, escElse, escThen, binop, boolValue, skipTo, scanVerb,
    literalNumberInner, atoi1, increment, Sprintf, bareVerb, paramStack.push,
    paramStack.pushBool, paramStack.pop, paramStack.popInt, paramStack.popBool,
    paramStack.popString, wrapInt_neg_add]
  · simp [bytes, Unescape_eq_run, run_nil, run_percent, run_literal, run_escape, escape, caseOf,
    isPrintfStart, isVerb, escPrintf, escParam, escChar, escLiteral, escStrlen, escAnd, escOr,
    escNot, escCompl, escIncr, escElse, escThen, binop, boolValue, skipTo, scanVerb,
    literalNumberInner, atoi1, increment, Sprintf, bareVerb, paramStack.push,
    paramStack.pushBool, paramStack.pop, paramStack.popInt, paramStack.popBool,
    paramStack.popString, Int.mul_comm]
  · intro h0
    simp [bytes, Unescape_eq_run, run_nil, run_percent, run_literal, run_escape, escape, caseOf,
    isPrintfStart, isVerb, escPrintf, escParam, escChar, escLiteral, escStrlen, escAnd, escOr,
    escNot, escCompl, escIncr, escElse, escThen, binop, boolValue, skipTo, scanVerb,
    literalNumberInner, atoi1, increment, Sprintf, bareVerb, paramStack.push,
    paramStack.pushBool, paramStack.pop, paramStack.popInt, paramStack.popBool,
    paramStack.popString, h0]
  · intro h0
    simp [bytes, Unescape_eq_run, run_nil, run_percent, run_literal, run_escape, escape, caseOf,
    isPrintfStart, isVerb, escPrintf, escParam, escChar, escLiteral, escStrlen, escAnd, escOr,
    escNot, escCompl, escIncr, escElse, escThen, binop, boolValue, skipTo, scanVerb,
    literalNumberInner, atoi1, increment, Sprintf, bareVerb, paramStack.push,
    paramStack.pushBool, paramStack.pop, paramStack.popInt, paramStack.popBool,
    paramStack.popString, h0]
  · simp [bytes, Unescape_eq_run, run_nil, run_percent, run_literal, run_escape, escape, caseOf,
    isPrintfStart, isVerb, escPrintf, escParam, escChar, escLiteral, escStrlen, escAnd, escOr,
    escNot, escCompl, escIncr, escElse, escThen, binop, boolValue, skipTo, scanVerb,
    literalNumberInner, atoi1, increment, Sprintf, bareVerb, paramStack.push,
    paramStack.pushBool, paramStack.pop, paramStack.popInt, paramStack.popBool,
    paramStack.popString, int_land_comm b a]
  · simp [bytes, Unescape_eq_run, run_nil, run_percent, run_literal, run_escape, escape, caseOf,
    isPrintfStart, isVerb, escPrintf, escParam, escChar, escLiteral, escStrlen, escAnd, escOr,
    escNot, escCompl, escIncr, escElse, escThen, binop, boolValue, skipTo, scanVerb,
    literalNumberInner, atoi1, increment, Sprintf, bareVerb, paramStack.push,
    paramStack.pushBool, paramStack.pop, paramStack.popInt, paramStack.popBool,
    paramStack.popString, int_lor_comm b a]
  · simp [bytes, Unescape_eq_run, run_nil, run_percent, run_literal, run_escape, escape, caseOf,
    isPrintfStart, isVerb, escPrintf, escParam, escChar, escLiteral, escStrlen, escAnd, escOr,
    escNot, escCompl, escIncr, escElse, escThen, binop, boolValue, skipTo, scanVerb,
    literalNumberInner, atoi1, increment, Sprintf, bareVerb, paramStack.push,
    paramStack.pushBool, paramStack.pop, paramStack.popInt, paramStack.popBool,
    paramStack.popString, int_xor_comm b a]

theorem Unescape_binop_witness :
    (4 : Int) ≠ 0 ∧
    Unescape noLib (bytes "%p1%p2%+%d") [.int 12, .int 4] = some (.ok (bytes "16")) ∧
    Unescape noLib (bytes "%p1%p2%-%d") [.int 12, .int 4] = some (.ok (bytes "8")) ∧
    Unescape noLib (bytes "%p1%p2%*%d") [.int 12, .int 4] = some (.ok (bytes "48")) ∧
    Unescape noLib (bytes "%p1%p2%/%d") [.int 12, .int 4] = some (.ok (bytes "3")) ∧
    Unescape noLib (bytes "%p1%p2%m%d") [.int 12, .int 4] = some (.ok (bytes "0")) ∧
    Unescape noLib (bytes "%p1%p2%&%d") [.int 12, .int 4] = some (.ok (bytes "4")) ∧
    Unescape noLib (bytes "%p1%p2%|%d") [.int 12, .int 4] = some (.ok (bytes "12")) ∧
    Unescape noLib (bytes "%p1%p2%^%d") [.int 12, .int 4] = some (.ok (bytes "8")) :=
  have h := Unescape_binop noLib 12 4
  ⟨by decide, h.1, h.2.1, h.2.2.1, h.2.2.2.1 (by decide), h.2.2.2.2.1 (by decide),
    h.2.2.2.2.2.1, h.2.2.2.2.2.2.1, h.2.2.2.2.2.2.2⟩

/-- C5 (amended): for integers a and b, `%p1%p2%-%d` prints the decimal text of a - b,
the first-pushed argument minus the second (in Go int arithmetic). -/
theorem Unescape_sub (lib : List Nat → Value → List Nat) (a b : Int) :
    Unescape lib (bytes "%p1%p2%-%d") [.int a, .int b] =
      some (.ok (decimal (wrapInt (a - b)))) := by
  simp [bytes, Unescape_eq_run, run_nil, run_percent, run_literal, run_escape, escape, caseOf,
    isPrintfStart, isVerb, escPrintf, escParam, escChar, escLiteral, escStrlen, escAnd, escOr,
    escNot, escCompl, escIncr, escElse, escThen, binop, boolValue, skipTo, scanVerb,
    literalNumberInner, atoi1, increment, Sprintf, bareVerb, paramStack.push,
    paramStack.pushBool, paramStack.pop, paramStack.popInt, paramStack.popBool,
    paramStack.popString, wrapInt_neg_add]

/-- C5 (as stated) fails: on the arguments 12 and 4 the output is 8, that is 12 - 4,
while the decimal text of b - a is -8. -/
theorem Unescape_sub_not_reversed :
    Unescape noLib (bytes "%p1%p2%-%d") [.int 12, .int 4] = some (.ok (bytes "8")) ∧
      Unescape noLib (bytes "%p1%p2%-%d") [.int 12, .int 4] ≠
        some (.ok (decimal (4 - 12))) := by
  refine ⟨by decide, by decide⟩

/-! ## Comparisons -/

/-- C6: for integers a and b pushed by `%p1%p2`, the operator = prints 1 exactly when
a = b, the operator < prints 1 exactly when a < b (top greater than second), and the
operator > prints 1 exactly when a > b (top less than second); otherwise 0 is printed. -/
theorem Unescape_compare (lib : List Nat → Value → List Nat) (a b : Int) :
    Unescape lib (bytes "%p1%p2%=%d") [.int a, .int b] =
      some (.ok (if a = b then bytes "1" else bytes "0")) ∧
    Unescape lib (bytes "%p1%p2%<%d") [.int a, .int b] =
      some (.ok (if a < b then bytes "1" else bytes "0")) ∧
    Unescape lib (bytes "%p1%p2%>%d") [.int a, .int b] =
      some (.ok (if a > b then bytes "1" else bytes "0")) := by
  refine ⟨?_, ?_, ?_⟩
  · by_cases h : a = b
    · subst h
      simp [bytes, Unescape_eq_run, run_nil, run_percent, run_literal, run_escape, escape, caseOf,
    isPrintfStart, isVerb, escPrintf, escParam, escChar, escLiteral, escStrlen, escAnd, escOr,
    escNot, escCompl, escIncr, escElse, escThen, binop, boolValue, skipTo, scanVerb,
    literalNumberInner, atoi1, increment, Sprintf, bareVerb, paramStack.push,
    paramStack.pushBool, paramStack.pop, paramStack.popInt, paramStack.popBool,
    paramStack.popString]
      decide
    · have h2 : ¬ b = a := fun e => h e.symm
      simp [bytes, Unescape_eq_run, run_nil, run_percent, run_literal, run_escape, escape, caseOf,
    isPrintfStart, isVerb, escPrintf, escParam, escChar, escLiteral, escStrlen, escAnd, escOr,
    escNot, escCompl, escIncr, escElse, escThen, binop, boolValue, skipTo, scanVerb,
    literalNumberInner, atoi1, increment, Sprintf, bareVerb, paramStack.push,
    paramStack.pushBool, paramStack.pop, paramStack.popInt, paramStack.popBool,
    paramStack.popString, h, h2]
      decide
  · by_cases h : a < b
    · simp [bytes, Unescape_eq_run, run_nil, run_percent, run_literal, run_escape, escape, caseOf,
    isPrintfStart, isVerb, escPrintf, escParam, escChar, escLiteral, escStrlen, escAnd, escOr,
    escNot, escCompl, escIncr, escElse, escThen, binop, boolValue, skipTo, scanVerb,
    literalNumberInner, atoi1, increment, Sprintf, bareVerb, paramStack.push,
    paramStack.pushBool, paramStack.pop, paramStack.popInt, paramStack.popBool,
    paramStack.popString, h]
      decide
    · simp [bytes, Unescape_eq_run, run_nil, run_percent, run_literal, run_escape, escape, caseOf,
    isPrintfStart, isVerb, escPrintf, escParam, escChar, escLiteral, escStrlen, escAnd, escOr,
    escNot, escCompl, escIncr, escElse, escThen, binop, boolValue, skipTo, scanVerb,
    literalNumberInner, atoi1, increment, Sprintf, bareVerb, paramStack.push,
    paramStack.pushBool, paramStack.pop, paramStack.popInt, paramStack.popBool,
    paramStack.popString, h]
      decide
  · by_cases h : b < a
    · simp [bytes, Unescape_eq_run, run_nil, run_percent, run_literal, run_escape, escape, caseOf,
    isPrintfStart, isVerb, escPrintf, escParam, escChar, escLiteral, escStrlen, escAnd, escOr,
    escNot, escCompl, escIncr, escElse, escThen, binop, boolValue, skipTo, scanVerb,
    literalNumberInner, atoi1, increment, Sprintf, bareVerb, paramStack.push,
    paramStack.pushBool, paramStack.pop, paramStack.popInt, paramStack.popBool,
    paramStack.popString, h]
      decide
    · simp [bytes, Unescape_eq_run, run_nil, run_percent, run_literal, run_escape, escape, caseOf,
    isPrintfStart, isVerb, escPrintf, escParam, escChar, escLiteral, escStrlen, escAnd, escOr,
    escNot, escCompl, escIncr, escElse, escThen, binop, boolValue, skipTo, scanVerb,
    literalNumberInner, atoi1, increment, Sprintf, bareVerb, paramStack.push,
    paramStack.pushBool, paramStack.pop, paramStack.popInt, paramStack.popBool,
    paramStack.popString, h]
      decide

/-! ## Conditionals -/

/-- The scan for the end of a branch passes over literal bytes. -/
theorem skipTo_literals (e : Bool) (lit x : List Nat) (h : 37 ∉ lit) :
    skipTo e (lit ++ x) = skipTo e x := by
  induction lit with
  | nil => rfl
  | cons a t ih =>
    simp only [List.mem_cons, not_or] at h
    have ha : a ≠ 37 := fun e => h.1 e.symm
    rw [← ih h.2]
    cases hx : t ++ x with
    | nil => simp [skipTo, hx]
    | cons b r => simp [skipTo, hx, ha]

/-- One conditional with literal branches, the condition being on top of the stack:
the then-branch is output for a condition other than 0, the else-branch for 0, and
evaluation goes on after the end marker. -/
theorem run_ifThenElse (lib : List Nat → Value → List Nat) (T E rest buf : List Nat)
    (stk args : List Value) (c : Int) (hT : 37 ∉ T) (hE : 37 ∉ E) :
    run lib (37 :: 116 :: (T ++ 37 :: 101 :: (E ++ 37 :: 59 :: rest))) false
        ⟨buf, ⟨.int c :: stk⟩, args⟩ =
      run lib rest false ⟨buf ++ (if c ≠ 0 then T else E), ⟨stk⟩, args⟩ := by
  by_cases hc : c = 0
  · subst hc
    have h1 : skipTo true (T ++ 37 :: 101 :: (E ++ 37 :: 59 :: rest)) =
        some (E ++ 37 :: 59 :: rest) := by
      rw [skipTo_literals true T _ hT]
      simp [skipTo]
    simp [run_percent, run_escape, escape, caseOf, isPrintfStart, isVerb, escThen, escElse,
      paramStack.pop, paramStack.popInt, paramStack.popBool, h1, run_literals lib E _ _ hE]
  · have h1 : skipTo false (E ++ 37 :: 59 :: rest) = some rest := by
      rw [skipTo_literals false E _ hE]
      simp [skipTo]
    simp [run_percent, run_escape, escape, caseOf, isPrintfStart, isVerb, escThen, escElse,
      paramStack.pop, paramStack.popInt, paramStack.popBool, h1, hc,
      run_literals lib T _ _ hT]

/-- The escape `%p1` pushes the first argument. -/
theorem run_param1 (lib : List Nat → Value → List Nat) (rest buf : List Nat)
    (stk args : List Value) (a : Value) :
    run lib (37 :: 112 :: 49 :: rest) false ⟨buf, ⟨stk⟩, a :: args⟩ =
      run lib rest false ⟨buf, ⟨a :: stk⟩, a :: args⟩ := by
  simp [run_percent, run_escape, escape, caseOf, isPrintfStart, isVerb, escParam, atoi1,
    paramStack.push]

/-- The escape `%p2` pushes the second argument. -/
theorem run_param2 (lib : List Nat → Value → List Nat) (rest buf : List Nat)
    (stk args : List Value) (a b : Value) :
    run lib (37 :: 112 :: 50 :: rest) false ⟨buf, ⟨stk⟩, a :: b :: args⟩ =
      run lib rest false ⟨buf, ⟨b :: stk⟩, a :: b :: args⟩ := by
  have h : ¬ (args.length + 1 + 1 < 2) := by omega
  simp [run_percent, run_escape, escape, caseOf, isPrintfStart, isVerb, escParam, atoi1,
    paramStack.push, h]

/-- A template that ends in literal bytes returns the buffer followed by them. -/
theorem run_literals_end (lib : List Nat → Value → List Nat) (lit : List Nat) (st : State)
    (h : 37 ∉ lit) : run lib lit false st = some (.ok (st.buf ++ lit)) := by
  have := run_literals lib lit [] st h
  rw [List.append_nil] at this
  rw [this, run_nil]

/-- C7: a conditional `%p1%t` T `%e` E `%;` with literal branches T and E returns T when
the argument is not 0 and E when it is 0; and two such conditionals in a row, with
literal text L0, L1, L2 around them, each select their branch from their own argument. -/
theorem Unescape_ifThenElse (lib : List Nat → Value → List Nat) (c p1 p2 : Int)
    (T E L0 L1 L2 T1 E1 T2 E2 : List Nat) (hT : 37 ∉ T) (hE : 37 ∉ E)
    (h0 : 37 ∉ L0) (h1 : 37 ∉ L1) (h2 : 37 ∉ L2)
    (hT1 : 37 ∉ T1) (hE1 : 37 ∉ E1) (hT2 : 37 ∉ T2) (hE2 : 37 ∉ E2) :
    Unescape lib (bytes "%p1%t" ++ T ++ bytes "%e" ++ E ++ bytes "%;") [.int c] =
      some (.ok (if c ≠ 0 then T else E)) ∧
    Unescape lib
        (L0 ++ bytes "%p1%t" ++ T1 ++ bytes "%e" ++ E1 ++ bytes "%;" ++ L1 ++
          bytes "%p2%t" ++ T2 ++ bytes "%e" ++ E2 ++ bytes "%;" ++ L2)
        [.int p1, .int p2] =
      some (.ok (L0 ++ (if p1 ≠ 0 then T1 else E1) ++ L1 ++ (if p2 ≠ 0 then T2 else E2) ++ L2)) := by
  constructor
  · have e : bytes "%p1%t" ++ T ++ bytes "%e" ++ E ++ bytes "%;" =
        37 :: 112 :: 49 :: 37 :: 116 :: (T ++ 37 :: 101 :: (E ++ 37 :: 59 :: [])) := by
      simp [bytes]
    rw [e, Unescape_eq_run, run_param1, run_ifThenElse lib T E _ _ _ _ _ hT hE, run_nil]
    simp
  · have e : L0 ++ bytes "%p1%t" ++ T1 ++ bytes "%e" ++ E1 ++ bytes "%;" ++ L1 ++
          bytes "%p2%t" ++ T2 ++ bytes "%e" ++ E2 ++ bytes "%;" ++ L2 =
        L0 ++ 37 :: 112 :: 49 :: 37 :: 116 :: (T1 ++ 37 :: 101 :: (E1 ++ 37 :: 59 ::
          (L1 ++ 37 :: 112 :: 50 :: 37 :: 116 :: (T2 ++ 37 :: 101 :: (E2 ++ 37 :: 59 :: L2))))) := by
      simp [bytes]
    rw [e, Unescape_eq_run, run_literals lib L0 _ _ h0, run_param1,
      run_ifThenElse lib T1 E1 _ _ _ _ _ hT1 hE1, run_literals lib L1 _ _ h1, run_param2,
      run_ifThenElse lib T2 E2 _ _ _ _ _ hT2 hE2, run_literals_end lib L2 _ h2]
    simp

theorem Unescape_ifThenElse_witness :
    (37 ∉ bytes "YES" ∧ 37 ∉ bytes "NO" ∧ 37 ∉ bytes "a " ∧ 37 ∉ bytes " " ∧ 37 ∉ bytes " z" ∧
      37 ∉ bytes "Y1" ∧ 37 ∉ bytes "N1" ∧ 37 ∉ bytes "Y2" ∧ 37 ∉ bytes "N2") ∧
    Unescape noLib (bytes "%p1%t" ++ bytes "YES" ++ bytes "%e" ++ bytes "NO" ++ bytes "%;")
        [.int 0] = some (.ok (if (0 : Int) ≠ 0 then bytes "YES" else bytes "NO")) ∧
    Unescape noLib
        (bytes "a " ++ bytes "%p1%t" ++ bytes "Y1" ++ bytes "%e" ++ bytes "N1" ++ bytes "%;" ++
          bytes " " ++ bytes "%p2%t" ++ bytes "Y2" ++ bytes "%e" ++ bytes "N2" ++ bytes "%;" ++
          bytes " z")
        [.int 1, .int 0] =
      some (.ok (bytes "a " ++ (if (1 : Int) ≠ 0 then bytes "Y1" else bytes "N1") ++ bytes " " ++
        (if (0 : Int) ≠ 0 then bytes "Y2" else bytes "N2") ++ bytes " z")) :=
  ⟨by decide, Unescape_ifThenElse noLib 0 1 0 _ _ _ _ _ _ _ _ _
    (by decide) (by decide) (by decide) (by decide) (by decide) (by decide) (by decide)
    (by decide) (by decide)⟩

/-- C8: the else-if chain `%p1%tY1%e%p2%tY2%eNO%;` returns Y1 when p1 is not 0,
otherwise Y2 when p2 is not 0, otherwise NO. -/
theorem Unescape_elseIf (lib : List Nat → Value → List Nat) (p1 p2 : Int) :
    Unescape lib (bytes "%p1%tY1%e%p2%tY2%eNO%;") [.int p1, .int p2] =
      some (.ok (if p1 ≠ 0 then bytes "Y1" else if p2 ≠ 0 then bytes "Y2" else bytes "NO")) := by
  by_cases h1 : p1 = 0 <;> by_cases h2 : p2 = 0 <;>
  simp [bytes, Unescape_eq_run, run_nil, run_percent, run_literal, run_escape, escape, caseOf,
    isPrintfStart, isVerb, escPrintf, escParam, escChar, escLiteral, escStrlen, escAnd, escOr,
    escNot, escCompl, escIncr, escElse, escThen, binop, boolValue, skipTo, scanVerb,
    literalNumberInner, atoi1, increment, Sprintf, bareVerb, paramStack.push,
    paramStack.pushBool, paramStack.pop, paramStack.popInt, paramStack.popBool,
    paramStack.popString, h1, h2]

/-- C9 (amended): the scan after a false condition is flat, it resumes after the first
`%e` or `%;` that follows the `%t`. For the nested template `%p1%t%p2%tA%eB%;%eC%;` the
result is A when p1 and p2 are both not 0 and B otherwise: for p1 = 0 evaluation resumes
after the inner `%e` and outputs B. -/
theorem Unescape_nested (lib : List Nat → Value → List Nat) (p1 p2 : Int) :
    Unescape lib (bytes "%p1%t%p2%tA%eB%;%eC%;") [.int p1, .int p2] =
      some (.ok (if p1 ≠ 0 ∧ p2 ≠ 0 then bytes "A" else bytes "B")) := by
  by_cases h1 : p1 = 0 <;> by_cases h2 : p2 = 0 <;>
  simp [bytes, Unescape_eq_run, run_nil, run_percent, run_literal, run_escape, escape, caseOf,
    isPrintfStart, isVerb, escPrintf, escParam, escChar, escLiteral, escStrlen, escAnd, escOr,
    escNot, escCompl, escIncr, escElse, escThen, binop, boolValue, skipTo, scanVerb,
    literalNumberInner, atoi1, increment, Sprintf, bareVerb, paramStack.push,
    paramStack.pushBool, paramStack.pop, paramStack.popInt, paramStack.popBool,
    paramStack.popString, h1, h2]

/-- C9 (as stated) fails: with p1 = 0 and p2 = 1 the nested template returns B, not C. -/
theorem Unescape_nested_not_depth_aware :
    Unescape noLib (bytes "%p1%t%p2%tA%eB%;%eC%;") [.int 0, .int 1] = some (.ok (bytes "B")) ∧
      Unescape noLib (bytes "%p1%t%p2%tA%eB%;%eC%;") [.int 0, .int 1] ≠
        some (.ok (bytes "C")) := by
  refine ⟨by decide, by decide⟩

/-! ## The increment escape -/

/-- C10: `%i` increments exactly the first two arguments for the rest of the evaluation.
With one argument a, `%i%p1%d` prints a + 1; with four arguments,
`%i%p1%p2%p3%p4%d%d%d%d` prints a4, a3, a2 + 1, a1 + 1 in this order; with no argument
`%i` changes nothing, wherever it stands in the template. The additions are those of the
Go type int (`wrapInt`). -/
theorem Unescape_increment (lib : List Nat → Value → List Nat) (a a1 a2 a3 a4 : Int) :
    Unescape lib (bytes "%i%p1%d") [.int a] = some (.ok (decimal (wrapInt (a + 1)))) ∧
    Unescape lib (bytes "%i%p1%p2%p3%p4%d%d%d%d") [.int a1, .int a2, .int a3, .int a4] =
      some (.ok (decimal a4 ++ decimal a3 ++ decimal (wrapInt (a2 + 1)) ++
        decimal (wrapInt (a1 + 1)))) ∧
    (∀ tpl : List Nat, Unescape lib (bytes "%i" ++ tpl) [] = Unescape lib tpl []) ∧
    (∀ (rest buf : List Nat) (stk : paramStack),
      run lib (bytes "%i" ++ rest) false ⟨buf, stk, []⟩ = run lib rest false ⟨buf, stk, []⟩) := by
  refine ⟨?_, ?_, ?_, ?_⟩
  · simp [bytes, Unescape_eq_run, run_nil, run_percent, run_literal, run_escape, escape, caseOf,
    isPrintfStart, isVerb, escPrintf, escParam, escChar, escLiteral, escStrlen, escAnd, escOr,
    escNot, escCompl, escIncr, escElse, escThen, binop, boolValue, skipTo, scanVerb,
    literalNumberInner, atoi1, increment, Sprintf, bareVerb, paramStack.push,
    paramStack.pushBool, paramStack.pop, paramStack.popInt, paramStack.popBool,
    paramStack.popString]
  · simp [bytes, Unescape_eq_run, run_nil, run_percent, run_literal, run_escape, escape, caseOf,
    isPrintfStart, isVerb, escPrintf, escParam, escChar, escLiteral, escStrlen, escAnd, escOr,
    escNot, escCompl, escIncr, escElse, escThen, binop, boolValue, skipTo, scanVerb,
    literalNumberInner, atoi1, increment, Sprintf, bareVerb, paramStack.push,
    paramStack.pushBool, paramStack.pop, paramStack.popInt, paramStack.popBool,
    paramStack.popString]
  · intro tpl
    simp [bytes, Unescape_eq_run, run_nil, run_percent, run_literal, run_escape, escape, caseOf,
    isPrintfStart, isVerb, escPrintf, escParam, escChar, escLiteral, escStrlen, escAnd, escOr,
    escNot, escCompl, escIncr, escElse, escThen, binop, boolValue, skipTo, scanVerb,
    literalNumberInner, atoi1, increment, Sprintf, bareVerb, paramStack.push,
    paramStack.pushBool, paramStack.pop, paramStack.popInt, paramStack.popBool,
    paramStack.popString]
  · intro rest buf stk
    simp [bytes, Unescape_eq_run, run_nil, run_percent, run_literal, run_escape, escape, caseOf,
    isPrintfStart, isVerb, escPrintf, escParam, escChar, escLiteral, escStrlen, escAnd, escOr,
    escNot, escCompl, escIncr, escElse, escThen, binop, boolValue, skipTo, scanVerb,
    literalNumberInner, atoi1, increment, Sprintf, bareVerb, paramStack.push,
    paramStack.pushBool, paramStack.pop, paramStack.popInt, paramStack.popBool,
    paramStack.popString]

/-! ## Decoding the serialized table -/

theorem readFull_append (a r : List Nat) (n : Nat) (h : a.length = n) :
    readFull n (a ++ r) = .ok (a, r) := by
  subst h
  unfold readFull
  cases a with
  | nil => simp
  | cons x xs => simp

theorem toInt16_bytes (v : Int) (u : Nat) (hu : (u : Int) = v % 65536)
    (h : -32768 ≤ v ∧ v < 32768) : toInt16 (u % 256 + 256 * (u / 256)) = v := by
  rw [Nat.mod_add_div u 256]
  unfold toInt16
  split <;> omega

theorem decodeInt16s_le16 (v : Int) (rest : List Nat) (h : -32768 ≤ v ∧ v < 32768) :
    decodeInt16s (le16 v ++ rest) = v :: decodeInt16s rest := by
  have e := toInt16_bytes v _ (Int.toNat_of_nonneg (by omega)) h
  simp [le16, decodeInt16s, e]

theorem decodeInt16s_flatMap (l : List Int) (h : ∀ v ∈ l, -32768 ≤ v ∧ v < 32768) :
    decodeInt16s (l.flatMap le16) = l := by
  induction l with
  | nil => simp [decodeInt16s]
  | cons v vs ih =>
    rw [List.flatMap_cons, decodeInt16s_le16 v _ (h v (List.mem_cons_self _ _)),
      ih fun x hx => h x (List.mem_cons_of_mem _ hx)]

theorem toInt32_bytes (v : Int) (u : Nat) (hu : (u : Int) = v % 4294967296)
    (h : -2147483648 ≤ v ∧ v < 2147483648) :
    toInt32 (u % 256 + 256 * (u / 256 % 256) + 65536 * (u / 65536 % 256) +
      16777216 * (u / 16777216)) = v := by
  have e : u % 256 + 256 * (u / 256 % 256) + 65536 * (u / 65536 % 256) +
      16777216 * (u / 16777216) = u := by omega
  rw [e]
  unfold toInt32
  split <;> omega

theorem decodeInt32s_le32 (v : Int) (rest : List Nat)
    (h : -2147483648 ≤ v ∧ v < 2147483648) :
    decodeInt32s (le32 v ++ rest) = v :: decodeInt32s rest := by
  have e := toInt32_bytes v _ (Int.toNat_of_nonneg (by omega)) h
  simp [le32, decodeInt32s, e]

theorem decodeInt32s_flatMap (l : List Int)
    (h : ∀ v ∈ l, -2147483648 ≤ v ∧ v < 2147483648) :
    decodeInt32s (l.flatMap le32) = l := by
  induction l with
  | nil => simp [decodeInt32s]
  | cons v vs ih =>
    rw [List.flatMap_cons, decodeInt32s_le32 v _ (h v (List.mem_cons_self _ _)),
      ih fun x hx => h x (List.mem_cons_of_mem _ hx)]

theorem length_flatMap_le16 (l : List Int) : (l.flatMap le16).length = 2 * l.length := by
  induction l with
  | nil => rfl
  | cons v vs ih => simp only [List.flatMap_cons, List.length_append, ih, le16,
      List.length_cons, List.length_nil]; omega

theorem length_flatMap_le32 (l : List Int) : (l.flatMap le32).length = 4 * l.length := by
  induction l with
  | nil => rfl
  | cons v vs ih => simp only [List.flatMap_cons, List.length_append, ih, le32,
      List.length_cons, List.length_nil]; omega

theorem split_no_sep (sep : Nat) (n : List Nat) (h : sep ∉ n) : split sep n = [n] := by
  induction n with
  | nil => rfl
  | cons c cs ih =>
    simp only [List.mem_cons, not_or] at h
    have hc : c ≠ sep := fun e => h.1 e.symm
    simp [split, hc, ih h.2]

theorem split_append_sep (sep : Nat) (n x : List Nat) (h : sep ∉ n) :
    split sep (n ++ sep :: x) = n :: split sep x := by
  induction n with
  | nil => simp [split]
  | cons c cs ih =>
    simp only [List.mem_cons, not_or] at h
    have hc : c ≠ sep := fun e => h.1 e.symm
    simp [split, hc, ih h.2]

theorem split_joinWith (sep : Nat) (names : List (List Nat)) (hne : names ≠ [])
    (h : ∀ n ∈ names, sep ∉ n) : split sep (joinWith sep names) = names := by
  induction names with
  | nil => exact absurd rfl hne
  | cons n rest ih =>
    cases rest with
    | nil => simpa [joinWith] using split_no_sep sep n (h n (List.mem_cons_self _ _))
    | cons m more =>
      have hn := h n (List.mem_cons_self _ _)
      have := ih (by simp) fun x hx => h x (List.mem_cons_of_mem _ hx)
      simp only [joinWith] at this ⊢
      rw [split_append_sep sep n _ hn, this]

theorem nulIndex_append (t x : List Nat) (h : 0 ∉ t) :
    nulIndex (t ++ 0 :: x) = some t.length := by
  induction t with
  | nil => simp [nulIndex]
  | cons c cs ih =>
    simp only [List.mem_cons, not_or] at h
    have hc : c ≠ 0 := fun e => h.1 e.symm
    simp [nulIndex, hc, ih h.2]

theorem length_stringOffsets (off : Nat) (strs : List (Option (List Nat))) :
    (stringOffsets off strs).length = strs.length := by
  induction strs generalizing off with
  | nil => rfl
  | cons o r ih => cases o <;> simp [stringOffsets, ih]

theorem stringOffsets_range (off : Nat) (strs : List (Option (List Nat))) :
    ∀ v ∈ stringOffsets off strs, -1 ≤ v ∧ v ≤ off + (stringTable strs).length := by
  induction strs generalizing off with
  | nil => simp [stringOffsets]
  | cons o r ih =>
    cases o with
    | none =>
      intro v hv
      simp only [stringOffsets, List.mem_cons] at hv
      rcases hv with rfl | hv
      · simp only [stringTable]; omega
      · simpa [stringTable] using ih off v hv
    | some t =>
      intro v hv
      simp only [stringOffsets, List.mem_cons] at hv
      rcases hv with rfl | hv
      · simp only [stringTable]; omega
      · have := ih (off + t.length + 1) v hv
        simp only [stringTable, List.length_append, List.length_cons]
        push_cast at this ⊢
        omega

/-- The loop over the offsets of a packed string table recovers the present templates. -/
theorem loadStrings_stringOffsets (pre : List Nat) (i : Nat)
    (strs : List (Option (List Nat))) (h : ∀ t, some t ∈ strs → 0 ∉ t) :
    loadStrings (pre ++ stringTable strs) i (stringOffsets pre.length strs) =
      some (stringEntries i strs) := by
  induction strs generalizing pre i with
  | nil => simp [stringOffsets, loadStrings, stringEntries]
  | cons o r ih =>
    have hr : ∀ t, some t ∈ r → 0 ∉ t := fun t ht => h t (List.mem_cons_of_mem _ ht)
    cases o with
    | none =>
      simp only [stringOffsets, stringTable, loadStrings, stringEntries, if_true]
      exact ih pre (i + 1) hr
    | some t =>
      have ht : 0 ∉ t := h t (List.mem_cons_self _ _)
      have hrec := ih (pre ++ t ++ [0]) (i + 1) hr
      simp only [List.length_append, List.length_cons, List.length_nil, List.append_assoc,
        List.cons_append, List.nil_append] at hrec
      have hne : ¬ ((pre.length : Int) = -1) := by omega
      have hin : ¬ ((pre.length : Int) < 0 ∨
          (((pre ++ (t ++ 0 :: stringTable r)).length : Nat) : Int) < (pre.length : Int)) := by
        simp only [List.length_append, List.length_cons]
        push_cast
        omega
      simp only [stringOffsets, stringTable, loadStrings, stringEntries, hne, if_false, hin,
        Int.toNat_ofNat, List.drop_left, nulIndex_append t _ ht, Option.getD_some,
        List.take_left]
      rw [show pre.length + t.length + 1 = pre.length + (t.length + 1) by omega, hrec]

theorem decodeInt16s_header (a b c d e f : Int)
    (ha : -32768 ≤ a ∧ a < 32768) (hb : -32768 ≤ b ∧ b < 32768)
    (hc : -32768 ≤ c ∧ c < 32768) (hd : -32768 ≤ d ∧ d < 32768)
    (he : -32768 ≤ e ∧ e < 32768) (hf : -32768 ≤ f ∧ f < 32768) :
    decodeInt16s (le16 a ++ le16 b ++ le16 c ++ le16 d ++ le16 e ++ le16 f) =
      [a, b, c, d, e, f] := by
  have := decodeInt16s_flatMap [a, b, c, d, e, f] (by
    intro v hv
    simp only [List.mem_cons, List.mem_singleton, List.not_mem_nil, or_false] at hv
    rcases hv with rfl | rfl | rfl | rfl | rfl | rfl <;> assumption)
  simpa [List.flatMap_cons] using this

theorem length_header (a b c d e f : Int) :
    (le16 a ++ le16 b ++ le16 c ++ le16 d ++ le16 e ++ le16 f).length = 12 := by
  simp [le16]

theorem length_namesSection (names : List (List Nat)) :
    (namesSection names).length = (joinWith 124 names).length + 1 := by
  simp [namesSection]

theorem length_boolsSection (bools : List Bool) : (boolsSection bools).length = bools.length := by
  simp [boolsSection]

theorem map_boolsSection (bools : List Bool) :
    (boolsSection bools).map (fun b => decide (b = 1)) = bools := by
  induction bools with
  | nil => rfl
  | cons b bs ih =>
    simp only [boolsSection, List.map_cons, List.map_map] at ih ⊢
    rw [ih]
    cases b <;> simp

theorem readFull_self (a : List Nat) (n : Nat) (h : a.length = n) :
    readFull n a = .ok (a, []) := by
  have := readFull_append a [] n h
  rwa [List.append_nil] at this

theorem seek_parity (a b : Nat) :
    (toInt16 (((a : Int) + b) % 65536).toNat % 2).toNat = (a + b) % 2 := by
  unfold toInt16
  split <;> omega

theorem drop_pad (a b : Nat) (rest : List Nat) :
    List.drop (toInt16 (((a : Int) + b) % 65536).toNat % 2).toNat
      ((if (a + b) % 2 = 1 then [0] else []) ++ rest) = rest := by
  rw [seek_parity]
  split
  · rename_i h
    simp [h]
  · rename_i h
    have : (a + b) % 2 = 0 := by omega
    simp [this]

theorem names_last (names : List (List Nat)) :
    (namesSection names)[(joinWith 124 names).length]? = some 0 := by
  simp [namesSection]

theorem readFull_le16 (l : List Int) (rest : List Nat) :
    readFull (2 * l.length) (l.flatMap le16 ++ rest) = .ok (l.flatMap le16, rest) :=
  readFull_append _ _ _ (length_flatMap_le16 l)

theorem readFull_le32 (l : List Int) (rest : List Nat) :
    readFull (4 * l.length) (l.flatMap le32 ++ rest) = .ok (l.flatMap le32, rest) :=
  readFull_append _ _ _ (length_flatMap_le32 l)

theorem readFull_offsets (strs : List (Option (List Nat))) (rest : List Nat) :
    readFull (2 * strs.length) ((stringOffsets 0 strs).flatMap le16 ++ rest) =
      .ok ((stringOffsets 0 strs).flatMap le16, rest) :=
  readFull_append _ _ _ (by rw [length_flatMap_le16, length_stringOffsets])

theorem names_take (names : List (List Nat)) :
    (namesSection names).take (joinWith 124 names).length = joinWith 124 names := by
  simp [namesSection]

/-- C2: decoding undoes the serialization. For a non-empty list of names without the
separator byte, any booleans, numbers within the width selected by `big`, templates
without NUL, and section sizes that fit a signed 16-bit header word, `load1` on the
serialized bytes succeeds and returns exactly the names, the booleans, the numbers (in
`Numbers` for magic 0432 with `BigNumbers` empty, in `BigNumbers` for magic 01036 with
`Numbers` empty) and a strings map with exactly the present indices, each with its
template. -/
theorem load1_encode (filename : String) (big : Bool) (names : List (List Nat))
    (bools : List Bool) (nums : List Int) (strs : List (Option (List Nat)))
    (hne : names ≠ []) (hnames : ∀ n ∈ names, 124 ∉ n)
    (hnums : ∀ v ∈ nums, if big = true then -2147483648 ≤ v ∧ v < 2147483648
      else -32768 ≤ v ∧ v < 32768)
    (hstrs : ∀ t, some t ∈ strs → 0 ∉ t)
    (hsz1 : (namesSection names).length ≤ 32767) (hsz2 : bools.length ≤ 32767)
    (hsz3 : nums.length ≤ 32767) (hsz4 : strs.length ≤ 32767)
    (hsz5 : (stringTable strs).length ≤ 32767) :
    load1 filename (encode big names bools nums strs) =
      .ok { Names := names
            Booleans := bools
            Numbers := if big then [] else nums
            BigNumbers := if big then nums else []
            Strings := stringEntries 0 strs } := by
  have hmagic : -32768 ≤ (if big = true then (542 : Int) else 282) ∧
      (if big = true then (542 : Int) else 282) < 32768 := by cases big <;> simp
  have hhdr := decodeInt16s_header (if big = true then 542 else 282)
    (namesSection names).length (boolsSection bools).length nums.length strs.length
    (stringTable strs).length hmagic (by omega)
    (by rw [length_boolsSection]; omega) (by omega) (by omega) (by omega)
  have hoffs : decodeInt16s ((stringOffsets 0 strs).flatMap le16) = stringOffsets 0 strs := by
    apply decodeInt16s_flatMap
    intro v hv
    have := stringOffsets_range 0 strs v hv
    omega
  have hload := loadStrings_stringOffsets [] 0 strs hstrs
  simp only [List.nil_append, List.length_nil] at hload
  have hsplit := split_joinWith 124 names hne hnames
  have hjl : ((namesSection names).length : Int) - 1 = ((joinWith 124 names).length : Nat) := by
    rw [length_namesSection]; push_cast; omega
  have hnn : ∀ n : Nat, ¬ ((n : Int) < 0) := fun n => by omega
  unfold encode
  simp only []
  unfold load1
  rw [readFull_append _ _ 12 (length_header _ _ _ _ _ _)]
  simp only [hhdr]
  cases big with
  | false =>
    have hn : decodeInt16s (nums.flatMap le16) = nums :=
      decodeInt16s_flatMap nums (by simpa using hnums)
    simp [readFull_append, readFull_self, hjl, names_last, names_take, hsplit,
      length_boolsSection, map_boolsSection, drop_pad, readFull_le16, hn,
      readFull_offsets, hoffs, hload, hnn]
  | true =>
    have hn : decodeInt32s (nums.flatMap le32) = nums :=
      decodeInt32s_flatMap nums (by simpa using hnums)
    simp [readFull_append, readFull_self, hjl, names_last, names_take, hsplit,
      length_boolsSection, map_boolsSection, drop_pad, readFull_le32, hn,
      readFull_offsets, hoffs, hload, hnn]

theorem load1_encode_witness :
    ([bytes "xterm", bytes "X11"] ≠ [] ∧
      (∀ n ∈ [bytes "xterm", bytes "X11"], 124 ∉ n) ∧
      (∀ v ∈ [80, -1, 100000], if true = true then -2147483648 ≤ v ∧ v < 2147483648
        else -32768 ≤ v ∧ v < 32768) ∧
      (∀ t, some t ∈ [some (bytes "ab"), none, some [], some (bytes "%p1%d")] → 0 ∉ t)) ∧
    load1 "xterm" (encode true [bytes "xterm", bytes "X11"] [true, false, true]
        [80, -1, 100000] [some (bytes "ab"), none, some [], some (bytes "%p1%d")]) =
      .ok { Names := [bytes "xterm", bytes "X11"]
            Booleans := [true, false, true]
            Numbers := if true = true then [] else [80, -1, 100000]
            BigNumbers := if true = true then [80, -1, 100000] else []
            Strings := stringEntries 0 [some (bytes "ab"), none, some [], some (bytes "%p1%d")] } :=
  ⟨⟨by decide, by decide, by decide, by simp [bytes]⟩,
    load1_encode "xterm" true [bytes "xterm", bytes "X11"] [true, false, true]
      [80, -1, 100000] [some (bytes "ab"), none, some [], some (bytes "%p1%d")]
      (by decide) (by decide) (by decide) (by simp [bytes]) (by decide) (by decide) (by decide)
      (by decide) (by decide)⟩

/-! ## Logical operators -/

/-- What the code does on `%p1%p2%p3%A%d%d` and `%p1%p2%p3%O%d%d`: the Go operators `&&`
and `||` do not evaluate their second operand when the first decides the result, so a
top operand b that decides it is the only one popped, and the second conversion then
prints a instead of x. -/
theorem Unescape_and_or_general (lib : List Nat → Value → List Nat) (x a b : Int) :
    Unescape lib (bytes "%p1%p2%p3%A%d%d") [.int x, .int a, .int b] =
      some (.ok (if b = 0 then bytes "0" ++ decimal a
        else (if a ≠ 0 then bytes "1" else bytes "0") ++ decimal x)) ∧
    Unescape lib (bytes "%p1%p2%p3%O%d%d") [.int x, .int a, .int b] =
      some (.ok (if b ≠ 0 then bytes "1" ++ decimal a
        else (if a ≠ 0 then bytes "1" else bytes "0") ++ decimal x)) := by
  have d0 : decimal 0 = [48] := by decide
  have d1 : decimal 1 = [49] := by decide
  constructor <;> by_cases ha : a = 0 <;> by_cases hb : b = 0 <;>
  simp [d0, d1, bytes, Unescape_eq_run, run_nil, run_percent, run_literal, run_escape, escape, caseOf,
    isPrintfStart, isVerb, escPrintf, escParam, escAnd, escOr, scanVerb, atoi1, Sprintf,
    bareVerb, paramStack.push, paramStack.pushBool, paramStack.pop, paramStack.popInt,
    paramStack.popBool, ha, hb]

/-- C11: evaluation at the failing inputs. On the arguments (7, 5, 0) the operator A
pops only the 0 and the output is 05, where popping two operands gives 07; on the
arguments (7, 0, 1) the operator O pops only the 1 and the output is 10, not 17. -/
theorem Unescape_and_or_short_circuit :
    Unescape noLib (bytes "%p1%p2%p3%A%d%d") [.int 7, .int 5, .int 0] = some (.ok (bytes "05")) ∧
    Unescape noLib (bytes "%p1%p2%p3%O%d%d") [.int 7, .int 0, .int 1] = some (.ok (bytes "10")) := by
  refine ⟨by decide, by decide⟩

/-! ## The character conversion -/

set_option maxRecDepth 100000 in
/-- The decimal digits of a number below 256 are digits and denote that number. -/
theorem natDigits_small :
    ∀ N, N < 256 → (∀ c ∈ natDigits 10 N, 48 ≤ c ∧ c ≤ 57) ∧ digitsValue (natDigits 10 N) = N := by
  decide

/-- The rune of a byte value is encoded in one byte below 128 and in two bytes from 128. -/
theorem encodeRune_byte (v : Nat) (h : v < 256) :
    encodeRune (v : Int) = if v < 128 then [v] else [192 + v / 64, 128 + v % 64] := by
  have h1 : ¬ ((v : Int) < 0 ∨ (1114111 : Int) < v) := by omega
  have h2 : v < 2048 := by omega
  unfold encodeRune
  rw [if_neg h1]
  simp [h2]

/-- C12 (amended): the character conversion prints the operand as one byte for the
values 0 to 127, and as the two bytes of its UTF-8 encoding for the values 128 to 255;
this holds for a number N written in decimal in braces and for a byte c between
quotes. -/
theorem Unescape_char (lib : List Nat → Value → List Nat) (N c : Nat)
    (hN : N < 256) (hc : c < 256) :
    Unescape lib (bytes "%\x7b" ++ natDigits 10 N ++ bytes "\x7d%c") [] =
      some (.ok (if N < 128 then [N] else [192 + N / 64, 128 + N % 64])) ∧
    Unescape lib (bytes "%" ++ [39, c, 39] ++ bytes "%c") [] =
      some (.ok (if c < 128 then [c] else [192 + c / 64, 128 + c % 64])) := by
  constructor
  · obtain ⟨hd, hv⟩ := natDigits_small N hN
    have h := literalNumberInner_digits (natDigits 10 N) [37, 99] 0 hd
      (by rw [show digitsFrom 0 (natDigits 10 N) = N from hv]; omega)
    rw [show digitsFrom 0 (natDigits 10 N) = N from hv] at h
    simp only [Nat.cast_zero] at h
    simp [bytes, Unescape_eq_run, run_nil, run_percent, run_escape, escape, caseOf,
      isPrintfStart, isVerb, escPrintf, escLiteral, scanVerb, Sprintf, bareVerb,
      paramStack.push, paramStack.pop, h, encodeRune_byte N hN]
  · simp [bytes, Unescape_eq_run, run_nil, run_percent, run_escape, escape, caseOf,
      isPrintfStart, isVerb, escPrintf, escChar, scanVerb, Sprintf, bareVerb,
      paramStack.push, paramStack.pop, encodeRune_byte c hc]

theorem Unescape_char_witness :
    ((65 : Nat) < 256 ∧ (120 : Nat) < 256) ∧
      Unescape noLib (bytes "%\x7b" ++ natDigits 10 65 ++ bytes "\x7d%c") [] = some (.ok [65]) ∧
      Unescape noLib (bytes "%" ++ [39, 120, 39] ++ bytes "%c") [] = some (.ok [120]) :=
  ⟨by decide, Unescape_char noLib 65 120 (by decide) (by decide)⟩

set_option maxRecDepth 100000 in
/-- C12 (as stated) fails: for the value 200 the conversion c prints the two bytes 195 and
136, not the single byte 200. -/
theorem Unescape_char_utf8 :
    Unescape noLib (bytes "%\x7b200\x7d%c") [] = some (.ok [195, 136]) ∧
      Unescape noLib (bytes "%\x7b200\x7d%c") [] ≠ some (.ok [200]) ∧
      Unescape noLib (bytes "%" ++ [39, 200, 39] ++ bytes "%c") [] = some (.ok [195, 136]) := by
  refine ⟨by decide, by decide, by decide⟩

/-! ## Outcomes of `Unescape` -/

/-- A binary operator returns from `Unescape` only by a panic. -/
theorem binop_ret {st : State} {rest : List Nat} {f : Int → Int → Option Value}
    {r : Res Err (List Nat)} (h : binop st rest f = .ret r) : r = .panic := by
  unfold binop at h
  repeat' split at h
  all_goals simp_all

/-- What one escape returns, when it returns, is one of the outcomes `IsOutcome`. -/
theorem escape_ret {lib : List Nat → Value → List Nat} {c : Nat} {rest : List Nat}
    {st : State} {r : Res Err (List Nat)} (h : escape lib c rest st = .ret r) :
    IsOutcome r := by
  unfold escape at h
  cases hc : caseOf c <;> simp only [hc] at h
  all_goals try (have hp := binop_ret h; subst hp; exact Or.inl rfl)
  all_goals try (simp only [Step.ret.injEq, reduceCtorEq] at h)
  all_goals try (subst h; simp [IsOutcome])
  all_goals
    first
      | unfold escPrintf at h
      | unfold escParam at h
      | unfold escChar at h
      | unfold escLiteral at h
      | unfold escStrlen at h
      | unfold escAnd at h
      | unfold escOr at h
      | unfold escNot at h
      | unfold escCompl at h
      | unfold escIncr at h
      | unfold escThen escElse at h
      | unfold escElse at h
  all_goals repeat' split at h
  all_goals simp only [Step.ret.injEq, reduceCtorEq] at h
  all_goals subst h
  all_goals simp [IsOutcome]

/-- What the main loop returns is one of the outcomes `IsOutcome`. -/
theorem loop_outcome (lib : List Nat → Value → List Nat) :
    ∀ (n : Nat) (rest : List Nat) (p : Bool) (st : State) (r : Res Err (List Nat)),
      loop lib n rest p st = some r → IsOutcome r := by
  intro n
  induction n with
  | zero => intro rest p st r h; simp [loop] at h
  | succ n ih =>
    intro rest p st r h
    cases rest with
    | nil =>
      simp only [loop, Option.some.injEq] at h
      exact Or.inr (Or.inl ⟨_, h.symm⟩)
    | cons c rest =>
      cases p with
      | false =>
        simp only [loop] at h
        split at h
        · exact ih _ _ _ _ h
        · exact ih _ _ _ _ h
      | true =>
        simp only [loop] at h
        cases he : escape lib c rest st with
        | ret r1 =>
          rw [he] at h
          simp only [Option.some.injEq] at h
          subst h
          exact escape_ret he
        | cont rest1 st1 =>
          rw [he] at h
          exact ih _ _ _ _ h

/-- An escape panics only in a state of `panicCause`, or as a p followed by the digit 0. -/
theorem escape_panic {lib : List Nat → Value → List Nat} {c : Nat} {rest : List Nat}
    {st : State} (h : escape lib c rest st = .ret .panic) :
    panicCause c rest st = true ∨ isParamZero c rest = true := by
  obtain ⟨buf, ⟨stk⟩, args⟩ := st
  unfold escape at h
  unfold panicCause isParamZero
  cases hc : caseOf c <;> simp only [hc] at h ⊢
  case printfLike =>
    unfold escPrintf at h
    cases hs : scanVerb (c :: rest) with
    | none => simp [hs] at h
    | some p => cases stk <;> simp_all [paramStack.pop, stackHas, Operand.fits]
  case param =>
    unfold escParam at h
    rcases rest with _ | ⟨d, rest1⟩
    · simp at h
    · cases ha : atoi1 d with
      | none => simp [ha] at h
      | some n =>
        simp only [ha] at h
        split at h
        · simp at h
        · rename_i hn
          rcases n with _ | k
          · simp only [atoi1] at ha
            split at ha
            · simp at ha
              right
              simp
              omega
            · simp at ha
          · simp only at h
            have hk : k < args.length := by simp at hn; omega
            simp [List.getElem?_eq_getElem hk] at h
  case incr =>
    unfold escIncr at h
    rcases args with _ | ⟨(_ | _), (_ | ⟨(_ | _), _⟩)⟩ <;>
      simp_all [increment, incrementsString]
  case quote =>
    unfold escChar at h
    split at h
    · split at h <;> simp at h
    · simp at h
  case brace =>
    unfold escLiteral at h
    split at h <;> simp at h
  case elseCase =>
    unfold escElse at h
    split at h <;> simp at h
  case thenCase =>
    unfold escThen at h
    rcases stk with _ | ⟨(n | _), _⟩
    · simp [stackHas, operands]
    · exfalso
      simp only [paramStack.popBool, paramStack.popInt, paramStack.pop] at h
      by_cases hn : n = 0
      · simp only [hn, escElse, ne_eq, not_true_eq_false, decide_False] at h
        split at h <;> simp at h
      · simp [hn] at h
    · simp [stackHas, operands, Operand.fits]
  case div =>
    rcases stk with _ | ⟨(n | _), (_ | ⟨(_ | _), _⟩)⟩ <;>
      simp_all [binop, paramStack.pop, paramStack.popInt, stackHas, Operand.fits, operands]
    by_contra hne
    simp [hne, paramStack.push] at h
  case mod =>
    rcases stk with _ | ⟨(n | _), (_ | ⟨(_ | _), _⟩)⟩ <;>
      simp_all [binop, paramStack.pop, paramStack.popInt, stackHas, Operand.fits, operands]
    by_contra hne
    simp [hne, paramStack.push] at h
  case logAnd =>
    rcases stk with _ | ⟨(n | _), (_ | ⟨(_ | _), _⟩)⟩ <;>
      simp_all [escAnd, paramStack.pop, paramStack.popInt, paramStack.popBool, stackHas,
        Operand.fits, operands]
    by_cases hn : n = 0 <;> simp [hn] at h
  case logOr =>
    rcases stk with _ | ⟨(n | _), (_ | ⟨(_ | _), _⟩)⟩ <;>
      simp_all [escOr, paramStack.pop, paramStack.popInt, paramStack.popBool, stackHas,
        Operand.fits, operands]
    by_cases hn : n = 0 <;> simp [hn] at h
  all_goals
    rcases stk with _ | ⟨(_ | _), (_ | ⟨(_ | _), _⟩)⟩ <;>
      simp_all [binop, escStrlen, escAnd, escOr, escNot, escCompl, escThen, escElse, escChar,
        escLiteral, paramStack.pop, paramStack.popInt, paramStack.popBool,
        paramStack.popString, stackHas, Operand.fits, operands]

/-- An escape other than A and O panics in every state of `panicCause`. -/
theorem escape_panic_of_cause {lib : List Nat → Value → List Nat} {c : Nat} {rest : List Nat}
    {st : State} (hA : caseOf c ≠ .logAnd) (hO : caseOf c ≠ .logOr)
    (h : panicCause c rest st = true) : escape lib c rest st = .ret .panic := by
  obtain ⟨buf, ⟨stk⟩, args⟩ := st
  unfold escape
  unfold panicCause at h
  cases hc : caseOf c <;> simp only [hc] at h ⊢
  case printfLike =>
    unfold escPrintf
    cases hs : scanVerb (c :: rest) with
    | none => simp [hs] at h
    | some p => cases stk <;> simp_all [paramStack.pop, stackHas, Operand.fits]
  case incr =>
    unfold escIncr
    rcases args with _ | ⟨(_ | _), (_ | ⟨(_ | _), _⟩)⟩ <;>
      simp_all [increment, incrementsString]
  case logAnd => exact absurd hc hA
  case logOr => exact absurd hc hO
  all_goals
    rcases stk with _ | ⟨(_ | _), (_ | ⟨(_ | _), _⟩)⟩ <;>
      simp_all [binop, escStrlen, escAnd, escOr, escNot, escCompl, escThen, escElse, escChar,
        escLiteral, paramStack.pop, paramStack.popInt, paramStack.popBool,
        paramStack.popString, stackHas, Operand.fits, operands]

/-- An escape returns the error of `strconv.Atoi` exactly as a p followed by a byte that
is not a digit. -/
theorem escape_numError {lib : List Nat → Value → List Nat} {c : Nat} {rest : List Nat}
    {st : State} :
    escape lib c rest st = .ret (.error .NumError) ↔
      caseOf c = .param ∧ ∃ d r, rest = d :: r ∧ ¬(48 ≤ d ∧ d ≤ 57) := by
  constructor
  · intro h
    unfold escape at h
    cases hc : caseOf c <;> simp only [hc] at h
    case param =>
      refine ⟨rfl, ?_⟩
      unfold escParam at h
      rcases rest with _ | ⟨d, r⟩
      · simp at h
      · refine ⟨d, r, rfl, ?_⟩
        intro hd
        simp only [atoi1, hd, and_self, if_true] at h
        repeat' split at h
        all_goals simp at h
    all_goals exfalso
    all_goals try (have hp := binop_ret h; simp at hp)
    all_goals try (simp at h)
    all_goals
      first
        | unfold escPrintf at h
        | unfold escChar at h
        | unfold escLiteral at h
        | unfold escStrlen at h
        | unfold escAnd at h
        | unfold escOr at h
        | unfold escNot at h
        | unfold escCompl at h
        | unfold escIncr at h
        | unfold escThen escElse at h
        | unfold escElse at h
    all_goals repeat' split at h
    all_goals simp at h
  · rintro ⟨hc, d, r, rfl, hd⟩
    simp [escape, hc, escParam, atoi1, hd]

/-- An escape that is executed and returns ends the loop with what it returns. -/
theorem loop_of_executed (lib : List Nat → Value → List Nat) :
    ∀ (n : Nat) (rest : List Nat) (p : Bool) (st : State) (e : Nat × List Nat × State)
      (r : Res Err (List Nat)), e ∈ executed lib n rest p st →
      escape lib e.1 e.2.1 e.2.2 = .ret r → loop lib n rest p st = some r := by
  intro n
  induction n with
  | zero => intro rest p st e r he; simp [executed] at he
  | succ n ih =>
    intro rest p st e r he hr
    cases rest with
    | nil => simp [executed] at he
    | cons c rest =>
      cases p with
      | false =>
        simp only [executed] at he
        simp only [loop]
        split
        · rename_i hc
          rw [if_pos hc] at he
          exact ih _ _ _ _ _ he hr
        · rename_i hc
          rw [if_neg hc] at he
          exact ih _ _ _ _ _ he hr
      | true =>
        simp only [executed, List.mem_cons] at he
        simp only [loop]
        rcases he with rfl | he
        · simp only at hr
          rw [hr]
        · cases hs : escape lib c rest st with
          | cont rest1 st1 =>
            simp only [hs] at he ⊢
            exact ih _ _ _ _ _ he hr
          | ret r1 => simp [hs] at he

/-- What the loop returns is the output at the end of the template, or what an executed
escape returns. -/
theorem executed_of_loop (lib : List Nat → Value → List Nat) :
    ∀ (n : Nat) (rest : List Nat) (p : Bool) (st : State) (r : Res Err (List Nat)),
      loop lib n rest p st = some r →
      (∃ out, r = .ok out) ∨
        ∃ e ∈ executed lib n rest p st, escape lib e.1 e.2.1 e.2.2 = .ret r := by
  intro n
  induction n with
  | zero => intro rest p st r h; simp [loop] at h
  | succ n ih =>
    intro rest p st r h
    cases rest with
    | nil =>
      simp only [loop, Option.some.injEq] at h
      exact Or.inl ⟨_, h.symm⟩
    | cons c rest =>
      cases p with
      | false =>
        simp only [loop] at h
        simp only [executed]
        split at h
        · rename_i hc
          rw [if_pos hc]
          exact ih _ _ _ _ h
        · rename_i hc
          rw [if_neg hc]
          exact ih _ _ _ _ h
      | true =>
        simp only [loop] at h
        simp only [executed, List.mem_cons]
        cases hs : escape lib c rest st with
        | cont rest1 st1 =>
          simp only [hs] at h ⊢
          rcases ih _ _ _ _ h with ho | ⟨e, he, hr⟩
          · exact Or.inl ho
          · exact Or.inr ⟨e, Or.inr he, hr⟩
        | ret r1 =>
          simp only [hs, Option.some.injEq] at h
          subst h
          exact Or.inr ⟨(c, rest, st), Or.inl rfl, hs⟩

/-- C13 (amended): for every template and every argument list of integers and strings
the evaluation ends, and its outcome is output bytes with a nil error, one of the four
errors ErrTruncatedParametrizedString, ErrBadParametrizedString, ErrNotImplemented,
ErrMissingArgs, the error of `strconv.Atoi`, or a run-time panic. The error of
`strconv.Atoi` is returned exactly when the evaluation executes a p followed by a byte
that is not a digit. When the evaluation executes no p followed by the digit 0, it
panics only at an escape executed in a state of `panicCause`: a pop from an empty stack
or of an operand of the wrong type, a division or remainder with the divisor 0, an
increment of a string argument. And every escape other than A and O that is executed in
such a state makes the evaluation panic. -/
theorem Unescape_outcome (lib : List Nat → Value → List Nat) (tpl : List Nat)
    (args : List Value) :
    (∃ r, Unescape lib tpl args = some r ∧
      (r = .panic ∨ (∃ out, r = .ok out) ∨ r = .error .ErrTruncatedParametrizedString ∨
        r = .error .ErrBadParametrizedString ∨ r = .error .ErrNotImplemented ∨
        r = .error .ErrMissingArgs ∨ r = .error .NumError)) ∧
    (Unescape lib tpl args = some (.error .NumError) ↔
      ∃ e ∈ escapes lib tpl args,
        caseOf e.1 = .param ∧ ∃ d r, e.2.1 = d :: r ∧ ¬(48 ≤ d ∧ d ≤ 57)) ∧
    ((∀ e ∈ escapes lib tpl args, isParamZero e.1 e.2.1 = false) →
      Unescape lib tpl args = some .panic →
      ∃ e ∈ escapes lib tpl args, panicCause e.1 e.2.1 e.2.2 = true) ∧
    (∀ e ∈ escapes lib tpl args, caseOf e.1 ≠ .logAnd → caseOf e.1 ≠ .logOr →
      panicCause e.1 e.2.1 e.2.2 = true → Unescape lib tpl args = some .panic) := by
  refine ⟨?_, ?_, ?_, ?_⟩
  · have h := Unescape_isSome lib tpl args
    obtain ⟨r, hr⟩ := Option.isSome_iff_exists.mp h
    exact ⟨r, hr, loop_outcome lib _ _ _ _ r hr⟩
  · constructor
    · intro h
      rcases executed_of_loop lib _ _ _ _ _ h with ⟨out, ho⟩ | ⟨e, he, hr⟩
      · simp at ho
      · exact ⟨e, he, escape_numError.mp hr⟩
    · rintro ⟨e, he, hc⟩
      exact loop_of_executed lib _ _ _ _ e _ he (escape_numError.mpr hc)
  · intro hz h
    rcases executed_of_loop lib _ _ _ _ _ h with ⟨out, ho⟩ | ⟨e, he, hr⟩
    · simp at ho
    · rcases escape_panic hr with hc | hp
      · exact ⟨e, he, hc⟩
      · rw [hz e he] at hp
        simp at hp
  · intro e he hA hO hc
    exact loop_of_executed lib _ _ _ _ e _ he (escape_panic_of_cause hA hO hc)

set_option maxRecDepth 100000 in
/-- The template `%p1%{0}%/` with the argument 5 executes no p followed by 0 and panics;
the escape at which it panics is the division, executed with 0 on top of 5. The template
`%d` without arguments executes the conversion d on an empty stack, and panics. -/
theorem Unescape_outcome_witness :
    ((∀ e ∈ escapes noLib (bytes "%p1%\x7b0\x7d%/") [.int 5], isParamZero e.1 e.2.1 = false) ∧
      Unescape noLib (bytes "%p1%\x7b0\x7d%/") [.int 5] = some .panic) ∧
    (∃ e ∈ escapes noLib (bytes "%p1%\x7b0\x7d%/") [.int 5],
      panicCause e.1 e.2.1 e.2.2 = true) ∧
    (47, [], (⟨[], ⟨[.int 0, .int 5]⟩, [.int 5]⟩ : State)) ∈
      escapes noLib (bytes "%p1%\x7b0\x7d%/") [.int 5] ∧
    ((100, [], (⟨[], ⟨[]⟩, []⟩ : State)) ∈ escapes noLib (bytes "%d") [] ∧
      caseOf 100 ≠ .logAnd ∧ caseOf 100 ≠ .logOr ∧
      panicCause 100 [] ⟨[], ⟨[]⟩, []⟩ = true) ∧
    Unescape noLib (bytes "%d") [] = some .panic :=
  ⟨⟨by decide, by decide⟩,
    (Unescape_outcome noLib (bytes "%p1%\x7b0\x7d%/") [.int 5]).2.2.1 (by decide) (by decide),
    by decide,
    ⟨by decide, by decide, by decide, by decide⟩,
    (Unescape_outcome noLib (bytes "%d") []).2.2.2 (100, [], ⟨[], ⟨[]⟩, []⟩)
      (by decide) (by decide) (by decide) (by decide)⟩

set_option maxRecDepth 100000 in
/-- C13 (as stated) fails: a conversion on an empty stack, a string length taken of an
integer, an addition of strings, a division or a remainder by zero and the argument
index 0 abort with a panic, and a non-digit after `%p` returns the error of
`strconv.Atoi`. -/
theorem Unescape_aborts :
    Unescape noLib (bytes "%d") [] = some .panic ∧
      Unescape noLib (bytes "%p1%l") [.int 5] = some .panic ∧
      Unescape noLib (bytes "%p1%p1%+") [.str (bytes "x")] = some .panic ∧
      Unescape noLib (bytes "%p1%\x7b0\x7d%/") [.int 5] = some .panic ∧
      Unescape noLib (bytes "%p1%\x7b0\x7d%m") [.int 5] = some .panic ∧
      Unescape noLib (bytes "%p0") [.int 5] = some .panic ∧
      Unescape noLib (bytes "%px") [.int 5] = some (.error .NumError) := by
  refine ⟨by decide, by decide, by decide, by decide, by decide, by decide, by decide⟩

/-! ## Unterminated and truncated escapes -/

/-- The scan finds nothing when no percent sign is followed by a semicolon or an e. -/
theorem skipTo_none (e : Bool) (rest : List Nat)
    (h : ∀ pre b post, rest = pre ++ 37 :: b :: post → b ≠ 59 ∧ b ≠ 101) :
    skipTo e rest = none := by
  induction rest with
  | nil => rfl
  | cons a t ih =>
    cases t with
    | nil => rfl
    | cons b r =>
      have ht : ∀ pre b1 post, b :: r = pre ++ 37 :: b1 :: post → b1 ≠ 59 ∧ b1 ≠ 101 := by
        intro pre b1 post hp
        exact h (a :: pre) b1 post (by rw [hp]; rfl)
      simp only [skipTo]
      split
      · rename_i hc
        obtain ⟨rfl, hb⟩ := hc
        have := h [] b r rfl
        rcases hb with hb | ⟨_, hb⟩
        · exact absurd hb this.1
        · exact absurd hb this.2
      · exact ih ht

/-- C14 (amended): a `%t` that pops a false condition fails with
ErrBadParametrizedString when neither `%;` nor `%e` occurs after it; a `%t` that pops a
true condition goes on as usual, and when only literal bytes follow, they are returned
with a nil error although no `%;` ends the conditional. -/
theorem Unescape_then_unterminated (lib : List Nat → Value → List Nat) (c : Int)
    (rest lit : List Nat)
    (hrest : ∀ pre b post, rest = pre ++ 37 :: b :: post → b ≠ 59 ∧ b ≠ 101)
    (hlit : 37 ∉ lit) (hc : c ≠ 0) :
    Unescape lib (bytes "%p1%t" ++ rest) [.int 0] = some (.error .ErrBadParametrizedString) ∧
    Unescape lib (bytes "%p1%t" ++ lit) [.int c] = some (.ok lit) := by
  constructor
  · have e : bytes "%p1%t" ++ rest = 37 :: 112 :: 49 :: 37 :: 116 :: rest := by simp [bytes]
    rw [e, Unescape_eq_run, run_param1, run_percent, run_escape]
    simp [escape, caseOf, isPrintfStart, isVerb, escThen, escElse, paramStack.pop,
      paramStack.popInt, paramStack.popBool, skipTo_none true rest hrest]
  · have e : bytes "%p1%t" ++ lit = 37 :: 112 :: 49 :: 37 :: 116 :: lit := by simp [bytes]
    rw [e, Unescape_eq_run, run_param1, run_percent, run_escape]
    simp [escape, caseOf, isPrintfStart, isVerb, escThen, paramStack.pop,
      paramStack.popInt, paramStack.popBool, hc, run_literals_end lib lit _ hlit]

theorem Unescape_then_unterminated_witness :
    ((∀ pre b post, bytes "YES" = pre ++ 37 :: b :: post → b ≠ 59 ∧ b ≠ 101) ∧
      37 ∉ bytes "YES" ∧ (1 : Int) ≠ 0) ∧
    Unescape noLib (bytes "%p1%t" ++ bytes "YES") [.int 0] =
      some (.error .ErrBadParametrizedString) ∧
    Unescape noLib (bytes "%p1%t" ++ bytes "YES") [.int 1] = some (.ok (bytes "YES")) :=
  have h : ∀ pre b post, bytes "YES" = pre ++ 37 :: b :: post → b ≠ 59 ∧ b ≠ 101 := by
    intro pre b post hp
    have hm : (37 : Nat) ∈ bytes "YES" := by rw [hp]; simp
    exact absurd hm (by decide)
  ⟨⟨h, by decide, by decide⟩,
    Unescape_then_unterminated noLib 1 (bytes "YES") (bytes "YES") h (by decide) (by decide)⟩

/-- C14 (as stated) fails: `%{1}%tYES` returns YES with a nil error; only `%{0}%tYES`
fails with ErrBadParametrizedString. -/
theorem Unescape_then_true_unterminated :
    Unescape noLib (bytes "%\x7b1\x7d%tYES") [] = some (.ok (bytes "YES")) ∧
      Unescape noLib (bytes "%\x7b1\x7d%tYES") [] ≠ some (.error .ErrBadParametrizedString) ∧
      Unescape noLib (bytes "%\x7b0\x7d%tYES") [] = some (.error .ErrBadParametrizedString) := by
  refine ⟨by decide, by decide, by decide⟩

/-- C15: evaluation at the failing inputs. A template that ends in a bare percent sign
returns the output so far with a nil error, and an opening brace with digits but without
closing brace returns the digits as output with a nil error; neither is rejected as
truncated. -/
theorem Unescape_truncated_accepted :
    Unescape noLib (bytes "%") [] = some (.ok []) ∧
      Unescape noLib (bytes "ab%") [] = some (.ok (bytes "ab")) ∧
      Unescape noLib (bytes "%\x7b12") [] = some (.ok (bytes "12")) ∧
      Unescape noLib (bytes "ab%\x7b12") [] = some (.ok (bytes "ab12")) := by
  refine ⟨by decide, by decide, by decide, by decide⟩

/-- The truncated escapes that are rejected with ErrTruncatedParametrizedString, after a
literal text s: `%p` without digit, a quote cut short after the quote or after the
character, and a percent sign followed by digits and flags without conversion letter. -/
theorem Unescape_truncated (lib : List Nat → Value → List Nat) (s fl : List Nat)
    (args : List Value) (x : Nat) (hs : 37 ∉ s) (hne : fl ≠ [])
    (hfl : ∀ c ∈ fl, (48 ≤ c ∧ c ≤ 57) ∨ c = 58 ∨ c = 35 ∨ c = 32) :
    Unescape lib (s ++ bytes "%p") args = some (.error .ErrTruncatedParametrizedString) ∧
    Unescape lib (s ++ [37, 39]) args = some (.error .ErrTruncatedParametrizedString) ∧
    Unescape lib (s ++ [37, 39, x]) args = some (.error .ErrTruncatedParametrizedString) ∧
    Unescape lib (s ++ bytes "%" ++ fl) args =
      some (.error .ErrTruncatedParametrizedString) := by
  have hscan : ∀ l : List Nat, (∀ c ∈ l, (48 ≤ c ∧ c ≤ 57) ∨ c = 58 ∨ c = 35 ∨ c = 32) →
      scanVerb l = none := by
    intro l hl
    induction l with
    | nil => rfl
    | cons c cs ih =>
      have hc := hl c (List.mem_cons_self _ _)
      have hv : isVerb c = false := by
        simp only [isVerb, Bool.or_eq_false_iff, decide_eq_false_iff_not]
        omega
      simp [scanVerb, hv, ih fun y hy => hl y (List.mem_cons_of_mem _ hy)]
  refine ⟨?_, ?_, ?_, ?_⟩
  · rw [Unescape_eq_run, run_literals lib s _ _ hs]
    simp [bytes, run_percent, run_escape, escape, caseOf, isPrintfStart, isVerb, escParam]
  · rw [Unescape_eq_run, run_literals lib s _ _ hs]
    simp [run_percent, run_escape, escape, caseOf, isPrintfStart, isVerb, escChar]
  · rw [Unescape_eq_run, run_literals lib s _ _ hs]
    simp [run_percent, run_escape, escape, caseOf, isPrintfStart, isVerb, escChar]
  · cases fl with
    | nil => exact absurd rfl hne
    | cons c cs =>
      have hc := hfl c (List.mem_cons_self _ _)
      have hp : isPrintfStart c = true := by
        simp only [isPrintfStart, Bool.or_eq_true, Bool.and_eq_true, decide_eq_true_eq]
        omega
      have hc37 : c ≠ 37 := by omega
      have e : s ++ bytes "%" ++ c :: cs = s ++ 37 :: c :: cs := by simp [bytes]
      rw [e, Unescape_eq_run, run_literals lib s _ _ hs, run_percent, run_escape]
      simp [escape, caseOf, hp, hc37, escPrintf, hscan (c :: cs) hfl]

/-! ## Errors and panics of `load1` -/

/-- A successful read returns the first `n` bytes and the rest. -/
theorem readFull_ok {n : Nat} {r a r1 : List Nat} (h : readFull n r = .ok (a, r1)) :
    a = r.take n ∧ r1 = r.drop n ∧ a.length = n := by
  unfold readFull at h
  split at h
  · rename_i h0
    simp only [Except.ok.injEq, Prod.mk.injEq] at h
    subst h0
    simp [← h.1, ← h.2]
  · split at h
    · simp at h
    · split at h
      · simp at h
      · rename_i hl
        simp only [Except.ok.injEq, Prod.mk.injEq] at h
        refine ⟨h.1.symm, h.2.symm, ?_⟩
        rw [← h.1, List.length_take]
        omega

/-- The header of a file of at least 12 bytes is read. -/
theorem readFull_header {file : List Nat} (h : 12 ≤ file.length) :
    readFull 12 file = .ok (file.take 12, file.drop 12) := by
  unfold readFull
  have h1 : file ≠ [] := by
    intro e
    rw [e] at h
    simp at h
  have h2 : ¬ file.length < 12 := by omega
  simp [h1, h2]

/-- Every error of `load1` names the file and one of the seven sections, and the section
named magic only for a first header word other than the two accepted values. -/
theorem load1_error {filename : String} {file : List Nat} {e : ErrBadThing}
    (h : load1 filename file = .error e) :
    e.Filename = filename ∧
      ((e.Thing = "magic" ∧ headerWord file 0 ≠ 282 ∧ headerWord file 0 ≠ 542) ∨
        e.Thing = "header" ∨ e.Thing = "names section" ∨ e.Thing = "booleans section" ∨
        e.Thing = "numbers section" ∨ e.Thing = "strings section" ∨
        e.Thing = "strings table") := by
  unfold load1 at h
  split at h
  · simp only [Res.error.injEq] at h
    subst h
    simp
  · rename_i hdr r0 hread
    have hh := (readFull_ok hread).1
    simp only [] at h
    split at h
    · rename_i hm
      simp only [Res.error.injEq] at h
      subst h
      refine ⟨rfl, Or.inl ⟨rfl, ?_⟩⟩
      rw [hh] at hm
      exact hm
    · repeat' split at h
      all_goals first
        | (simp only [Res.error.injEq] at h; subst h; simp)
        | simp at h

/-- The first header word is the first two bytes, little-endian. -/
theorem headerWord_zero (b0 b1 : Nat) (rest : List Nat) :
    headerWord (b0 :: b1 :: rest) 0 = toInt16 (b0 + 256 * b1) := by
  simp [headerWord, decodeInt16s]

/-- C16: for a buffer of at least 12 bytes whose first little-endian 16-bit word is
neither octal 0432 (282) nor octal 01036 (542), `load1` fails with an ErrBadThing whose
Thing is magic and whose Filename is the file decoded, whatever the other bytes are;
and when the first word is one of the two accepted values, no error of `load1` has the
Thing magic. -/
theorem load1_magic (filename : String) (b0 b1 : Nat) (rest : List Nat)
    (hb0 : b0 < 256) (hb1 : b1 < 256) (hlen : 10 ≤ rest.length) :
    ((b0 + 256 * b1 ≠ 282 ∧ b0 + 256 * b1 ≠ 542) →
      load1 filename (b0 :: b1 :: rest) =
        .error ⟨filename, "magic", .badMagic (toInt16 (b0 + 256 * b1))⟩) ∧
    ((b0 + 256 * b1 = 282 ∨ b0 + 256 * b1 = 542) →
      ∀ e, load1 filename (b0 :: b1 :: rest) = .error e → e.Thing ≠ "magic") := by
  have hw := headerWord_zero b0 b1 rest
  have hmod : (b0 + 256 * b1) % 65536 = b0 + 256 * b1 := Nat.mod_eq_of_lt (by omega)
  have hv : toInt16 (b0 + 256 * b1) =
      if b0 + 256 * b1 < 32768 then ((b0 + 256 * b1 : Nat) : Int)
      else ((b0 + 256 * b1 : Nat) : Int) - 65536 := by
    unfold toInt16
    rw [hmod]
  constructor
  · intro hm
    have hne : toInt16 (b0 + 256 * b1) ≠ 282 ∧ toInt16 (b0 + 256 * b1) ≠ 542 := by
      rw [hv]
      split <;> omega
    unfold load1
    rw [readFull_header (by simp only [List.length_cons]; omega)]
    simp only []
    have hw2 : (decodeInt16s (List.take 12 (b0 :: b1 :: rest))).getD 0 0 =
        toInt16 (b0 + 256 * b1) := hw
    rw [hw2, if_pos hne]
  · intro hm e he
    have := load1_error he
    rcases this.2 with h | h | h | h | h | h | h
    · exfalso
      rw [hw, hv] at h
      split at h <;> omega
    all_goals (rw [h]; decide)

theorem load1_magic_witness :
    ((26 : Nat) < 256 ∧ (2 : Nat) < 256 ∧ 10 ≤ [0, 0, 0, 0, 0, 0, 0, 0, 0, 0, 7].length ∧
      (26 + 256 * 2 ≠ 282 ∧ 26 + 256 * 2 ≠ 542)) ∧
    load1 "xterm" (26 :: 2 :: [0, 0, 0, 0, 0, 0, 0, 0, 0, 0, 7]) =
      .error ⟨"xterm", "magic", .badMagic (toInt16 (26 + 256 * 2))⟩ :=
  ⟨by decide, (load1_magic "xterm" 26 2 [0, 0, 0, 0, 0, 0, 0, 0, 0, 0, 7] (by decide)
    (by decide) (by decide)).1 (by decide)⟩

/-- C17: evaluation at the failing input. With an accepted magic and a declared names
length of 0 the names section is empty, so it does not end with a NUL; `load1` indexes
it at -1 and panics instead of returning the error of the names section. -/
theorem load1_empty_names_panics :
    load1 "xterm" [26, 1, 0, 0, 0, 0, 0, 0, 0, 0, 0, 0] = .panic ∧
      load1 "xterm" [30, 2, 0, 0, 0, 0, 0, 0, 0, 0, 0, 0, 1, 2, 3] = .panic := by
  refine ⟨by decide, by decide⟩

/-- With an accepted magic and a names section of declared length at least 1 that is
fully present and does not end with a NUL, `load1` returns the error of the names
section. -/
theorem load1_names_not_terminated (filename : String) (file : List Nat)
    (hm : headerWord file 0 = 282 ∨ headerWord file 0 = 542) (h1 : 1 ≤ headerWord file 1)
    (hlen : 12 + (headerWord file 1).toNat ≤ file.length)
    (hlast : file[12 + (headerWord file 1).toNat - 1]? ≠ some 0) :
    load1 filename file = .error ⟨filename, "names section", .missingNull⟩ := by
  have hread : readFull 12 file = .ok (file.take 12, file.drop 12) :=
    readFull_header (by omega)
  unfold load1
  rw [hread]
  simp only []
  simp only [headerWord] at hm h1 hlen hlast
  generalize (decodeInt16s (List.take 12 file)).getD 0 0 = H0 at *
  generalize (decodeInt16s (List.take 12 file)).getD 1 0 = H1 at *
  have hmag : ¬ (H0 ≠ 282 ∧ H0 ≠ 542) := by omega
  rw [if_neg hmag, if_neg (by omega)]
  have hn : readFull H1.toNat (List.drop 12 file) =
      .ok ((List.drop 12 file).take H1.toNat, (List.drop 12 file).drop H1.toNat) := by
    unfold readFull
    have e1 : ¬ H1.toNat = 0 := by omega
    have e2 : ¬ List.drop 12 file = [] := by
      intro e
      have := congrArg List.length e
      simp only [List.length_drop, List.length_nil] at this
      omega
    have e3 : ¬ (List.drop 12 file).length < H1.toNat := by
      simp only [List.length_drop]
      omega
    rw [if_neg e1, if_neg e2, if_neg e3]
  rw [hn]
  simp only []
  rw [if_neg (by omega)]
  have hidx : (H1 - 1).toNat = H1.toNat - 1 := by omega
  have hget : (List.take H1.toNat (List.drop 12 file)).get? (H1 - 1).toNat =
      file[12 + H1.toNat - 1]? := by
    rw [hidx, List.get?_eq_getElem?, List.getElem?_take_of_lt (by omega), List.getElem?_drop]
    congr 1
    omega
  rw [hget]
  cases hv : file[12 + H1.toNat - 1]? with
  | none =>
    exfalso
    rw [List.getElem?_eq_none_iff] at hv
    omega
  | some last =>
    have hne : last ≠ 0 := by
      intro e
      rw [hv, e] at hlast
      exact hlast rfl
    simp [hne]

/-- The loop over the string offsets does not panic when every offset is -1 or lies
between 0 and the length of the string table. -/
theorem loadStrings_ne_none (strTable : List Nat) (i : Nat) (idxs : List Int)
    (h : ∀ idx ∈ idxs, idx = -1 ∨ (0 ≤ idx ∧ idx ≤ strTable.length)) :
    loadStrings strTable i idxs ≠ none := by
  induction idxs generalizing i with
  | nil => simp [loadStrings]
  | cons idx rest ih =>
    have hrest : ∀ x ∈ rest, x = -1 ∨ (0 ≤ x ∧ x ≤ strTable.length) :=
      fun x hx => h x (List.mem_cons_of_mem _ hx)
    have hi := h idx (List.mem_cons_self _ _)
    simp only [loadStrings]
    split
    · exact ih (i + 1) hrest
    · rename_i hne
      have hin : ¬ (idx < 0 ∨ (strTable.length : Int) < idx) := by omega
      rw [if_neg hin]
      have := ih (i + 1) hrest
      cases hl : loadStrings strTable (i + 1) rest with
      | none => exact absurd hl this
      | some m => simp

/-- With a names length of at least 1, no negative length or count, and string offsets
that are -1 or within the string table, `load1` does not panic. -/
theorem load1_no_panic (filename : String) (file : List Nat)
    (h1 : 1 ≤ headerWord file 1) (h2 : 0 ≤ headerWord file 2) (h3 : 0 ≤ headerWord file 3)
    (h4 : 0 ≤ headerWord file 4) (h5 : 0 ≤ headerWord file 5)
    (hoff : ∀ idx ∈ fileOffsets file, idx = -1 ∨ (0 ≤ idx ∧ idx ≤ headerWord file 5)) :
    load1 filename file ≠ .panic := by
  unfold load1
  split
  · simp
  · rename_i hdr r0 hread
    obtain ⟨hhdr, hr0, -⟩ := readFull_ok hread
    simp only []
    unfold fileOffsets at hoff
    simp only [headerWord, ← hhdr] at h1 h2 h3 h4 h5 hoff
    generalize (decodeInt16s hdr).getD 0 0 = H0 at *
    generalize (decodeInt16s hdr).getD 1 0 = H1 at *
    generalize (decodeInt16s hdr).getD 2 0 = H2 at *
    generalize (decodeInt16s hdr).getD 3 0 = H3 at *
    generalize (decodeInt16s hdr).getD 4 0 = H4 at *
    generalize (decodeInt16s hdr).getD 5 0 = H5 at *
    split
    · simp
    · rw [if_neg (by omega)]
      split
      · simp
      · rename_i rawNames r1 hn
        obtain ⟨-, hr1, hlen1⟩ := readFull_ok hn
        rw [if_neg (by omega)]
        split
        · rename_i hg
          exfalso
          rw [List.get?_eq_none] at hg
          omega
        · split
          · simp
          · rw [if_neg (by omega)]
            split
            · simp
            · rename_i rawBools r2 hb
              obtain ⟨-, hr2, -⟩ := readFull_ok hb
              rw [if_neg (by omega)]
              split
              · simp
              · rename_i rawNums r4 hnum
                obtain ⟨-, hr4, -⟩ := readFull_ok hnum
                rw [if_neg (by omega)]
                split
                · simp
                · rename_i rawIdx r5 hidx
                  obtain ⟨hraw, -, -⟩ := readFull_ok hidx
                  rw [if_neg (by omega)]
                  split
                  · simp
                  · rename_i strTable r6 htbl
                    obtain ⟨-, -, hlen5⟩ := readFull_ok htbl
                    split
                    · rename_i hls
                      exfalso
                      refine loadStrings_ne_none strTable 0 _ ?_ hls
                      have hpar : (toInt16 ((H1 + H2) % 65536).toNat % 2).toNat =
                          (H1.toNat + H2.toNat) % 2 := by
                        have := seek_parity H1.toNat H2.toNat
                        rwa [Int.toNat_of_nonneg (by omega), Int.toNat_of_nonneg h2] at this
                      have hw : (if decide (H0 = 542) = true then 4 else 2) =
                          (if H0 = 542 then 4 else 2) := by simp
                      intro idx hidx
                      have := hoff idx (by
                        rw [hraw, hr4, hr2, hr1, hr0, hpar, hw] at hidx
                        exact hidx)
                      rw [hlen5, Int.toNat_of_nonneg h5]
                      exact this
                    · simp

/-- A read of `n > 0` bytes fails on a rest shorter than `n`. -/
theorem readFull_short {n : Nat} {r : List Nat} (h0 : 0 < n) (h : r.length < n) :
    ∃ e, readFull n r = .error e := by
  unfold readFull
  rw [if_neg (by omega)]
  split
  · exact ⟨_, rfl⟩
  · exact ⟨_, rfl⟩

/-- A read of no byte, or of at most as many bytes as the rest holds, succeeds. -/
theorem readFull_enough {n : Nat} {r : List Nat} (h : n = 0 ∨ n ≤ r.length) :
    readFull n r = .ok (r.take n, r.drop n) := by
  unfold readFull
  split
  · rename_i h0
    subst h0
    simp
  · rename_i h0
    have hn : n ≤ r.length := by omega
    have h1 : r ≠ [] := by
      intro e
      rw [e] at hn
      simp at hn
      exact h0 hn
    rw [if_neg h1, if_neg (by omega)]

/-- The loop over the string offsets panics exactly when some offset other than -1 is
negative or larger than the length of the string table. -/
theorem loadStrings_eq_none (strTable : List Nat) (i : Nat) (idxs : List Int) :
    loadStrings strTable i idxs = none ↔
      ∃ idx ∈ idxs, idx ≠ -1 ∧ (idx < 0 ∨ (strTable.length : Int) < idx) := by
  induction idxs generalizing i with
  | nil => simp [loadStrings]
  | cons idx rest ih =>
    simp only [loadStrings, List.mem_cons, exists_eq_or_imp]
    split
    · rename_i h
      rw [ih]
      simp [h]
    · rename_i h
      split
      · rename_i hb
        simp [h, hb]
      · rename_i hb
        have := ih (i + 1)
        cases hl : loadStrings strTable (i + 1) rest with
        | none =>
          rw [hl] at this
          simp only [true_iff] at this ⊢
          exact Or.inr this
        | some m =>
          rw [hl] at this
          simp only [reduceCtorEq, false_iff] at this ⊢
          rintro (⟨-, hc⟩ | hc)
          · exact hb hc
          · exact this hc

/-- On every file but those of at least 12 bytes with an accepted magic and a declared
names length of 0, `load1` ends as the header and the length of the file determine it by
`expectedEnding`. -/
theorem load1_ending (filename : String) (file : List Nat)
    (h1 : 12 ≤ file.length → (headerWord file 0 = 282 ∨ headerWord file 0 = 542) →
      headerWord file 1 ≠ 0) :
    ending (load1 filename file) = expectedEnding file := by
  unfold load1 expectedEnding
  by_cases hL : file.length < 12
  · obtain ⟨e, he⟩ := readFull_short (by omega : 0 < 12) hL
    rw [he, if_pos hL]
    rfl
  rw [readFull_header (by omega), if_neg hL]
  simp only []
  unfold tableEnd offsetsEnd numbersEnd boolsEnd namesEnd numberWidth fileOffsets
  unfold headerWord at h1 ⊢
  generalize (decodeInt16s (List.take 12 file)).getD 1 0 = H1 at *
  generalize (decodeInt16s (List.take 12 file)).getD 2 0 = H2 at *
  generalize (decodeInt16s (List.take 12 file)).getD 3 0 = H3 at *
  generalize (decodeInt16s (List.take 12 file)).getD 4 0 = H4 at *
  generalize (decodeInt16s (List.take 12 file)).getD 5 0 = H5 at *
  generalize (decodeInt16s (List.take 12 file)).getD 0 0 = H0 at *
  by_cases hm : H0 ≠ 282 ∧ H0 ≠ 542
  · rw [if_pos hm, if_pos hm]
    rfl
  rw [if_neg hm, if_neg hm]
  have h1 : H1 ≠ 0 := h1 (by omega) (by omega)
  by_cases hn1 : H1 < 0
  · rw [if_pos hn1, if_pos hn1]
    rfl
  rw [if_neg hn1, if_neg hn1]
  by_cases hs1 : file.length < 12 + H1.toNat
  · obtain ⟨e, he⟩ := @readFull_short H1.toNat (List.drop 12 file) (by omega)
      (by simp only [List.length_drop]; omega)
    rw [he, if_pos hs1]
    rfl
  rw [@readFull_enough H1.toNat (List.drop 12 file)
    (Or.inr (by simp only [List.length_drop]; omega)), if_neg hs1]
  simp only []
  rw [if_neg (by omega : ¬ H1 - 1 < 0)]
  have hget : (List.take H1.toNat (List.drop 12 file)).get? (H1 - 1).toNat =
      file[12 + H1.toNat - 1]? := by
    have hidx : (H1 - 1).toNat = H1.toNat - 1 := by omega
    rw [hidx, List.get?_eq_getElem?, List.getElem?_take_of_lt (by omega), List.getElem?_drop]
    congr 1
    omega
  rw [hget]
  by_cases hnul : file[12 + H1.toNat - 1]? ≠ some 0
  · rw [if_pos hnul]
    cases hv : file[12 + H1.toNat - 1]? with
    | none =>
      exfalso
      rw [List.getElem?_eq_none_iff] at hv
      omega
    | some last =>
      have hne : last ≠ 0 := by
        intro e
        rw [hv, e] at hnul
        exact hnul rfl
      simp only []
      rw [if_pos hne]
      rfl
  rw [if_neg hnul]
  rw [not_not.mp hnul]
  simp only []
  rw [if_neg (by simp : ¬ (0 : Nat) ≠ 0)]
  by_cases hn2 : H2 < 0
  · rw [if_pos hn2, if_pos hn2]
    rfl
  rw [if_neg hn2, if_neg hn2]
  by_cases hs2 : file.length < 12 + H1.toNat + H2.toNat
  · obtain ⟨e, he⟩ := @readFull_short H2.toNat (List.drop H1.toNat (List.drop 12 file))
      (by omega) (by simp only [List.length_drop]; omega)
    rw [he, if_pos hs2]
    rfl
  rw [@readFull_enough H2.toNat (List.drop H1.toNat (List.drop 12 file))
    (Or.inr (by simp only [List.length_drop]; omega)), if_neg hs2]
  simp only []
  by_cases hn3 : H3 < 0
  · rw [if_pos hn3, if_pos hn3]
    rfl
  rw [if_neg hn3, if_neg hn3]
  have hpar : (toInt16 ((H1 + H2) % 65536).toNat % 2).toNat = (H1.toNat + H2.toNat) % 2 := by
    have hp := seek_parity H1.toNat H2.toNat
    rwa [Int.toNat_of_nonneg (by omega), Int.toNat_of_nonneg (by omega)] at hp
  have hw : (if decide (H0 = 542) = true then 4 else 2 : Nat) = (if H0 = 542 then 4 else 2) := by
    simp
  rw [hpar, hw]
  have hn3pos : 0 < (if H0 = 542 then 4 else 2) * H3.toNat ↔ 0 < H3 := by
    split <;> omega
  by_cases hs3 : 0 < H3 ∧ file.length <
      12 + H1.toNat + H2.toNat + (H1.toNat + H2.toNat) % 2 + (if H0 = 542 then 4 else 2) * H3.toNat
  · obtain ⟨e, he⟩ := @readFull_short ((if H0 = 542 then 4 else 2) * H3.toNat)
      (List.drop ((H1.toNat + H2.toNat) % 2)
        (List.drop H2.toNat (List.drop H1.toNat (List.drop 12 file))))
      (by omega) (by simp only [List.length_drop]; omega)
    rw [he, if_pos hs3]
    rfl
  rw [@readFull_enough ((if H0 = 542 then 4 else 2) * H3.toNat)
    (List.drop ((H1.toNat + H2.toNat) % 2)
      (List.drop H2.toNat (List.drop H1.toNat (List.drop 12 file))))
    (by simp only [List.length_drop]; omega), if_neg hs3]
  simp only []
  by_cases hn4 : H4 < 0
  · rw [if_pos hn4, if_pos hn4]
    rfl
  rw [if_neg hn4, if_neg hn4]
  by_cases hs4 : 0 < H4 ∧ file.length <
      12 + H1.toNat + H2.toNat + (H1.toNat + H2.toNat) % 2 +
        (if H0 = 542 then 4 else 2) * H3.toNat + 2 * H4.toNat
  · obtain ⟨e, he⟩ := @readFull_short (2 * H4.toNat)
      (List.drop ((if H0 = 542 then 4 else 2) * H3.toNat)
        (List.drop ((H1.toNat + H2.toNat) % 2)
          (List.drop H2.toNat (List.drop H1.toNat (List.drop 12 file)))))
      (by omega) (by simp only [List.length_drop]; omega)
    rw [he, if_pos hs4]
    rfl
  rw [@readFull_enough (2 * H4.toNat)
    (List.drop ((if H0 = 542 then 4 else 2) * H3.toNat)
      (List.drop ((H1.toNat + H2.toNat) % 2)
        (List.drop H2.toNat (List.drop H1.toNat (List.drop 12 file)))))
    (by simp only [List.length_drop]; omega), if_neg hs4]
  simp only []
  by_cases hn5 : H5 < 0
  · rw [if_pos hn5, if_pos hn5]
    rfl
  rw [if_neg hn5, if_neg hn5]
  by_cases hs5 : 0 < H5 ∧ file.length <
      12 + H1.toNat + H2.toNat + (H1.toNat + H2.toNat) % 2 +
        (if H0 = 542 then 4 else 2) * H3.toNat + 2 * H4.toNat + H5.toNat
  · obtain ⟨e, he⟩ := @readFull_short H5.toNat
      (List.drop (2 * H4.toNat) (List.drop ((if H0 = 542 then 4 else 2) * H3.toNat)
        (List.drop ((H1.toNat + H2.toNat) % 2)
          (List.drop H2.toNat (List.drop H1.toNat (List.drop 12 file))))))
      (by omega) (by simp only [List.length_drop]; omega)
    rw [he, if_pos hs5]
    rfl
  have hpres : H5.toNat = 0 ∨ H5.toNat ≤
      (List.drop (2 * H4.toNat) (List.drop ((if H0 = 542 then 4 else 2) * H3.toNat)
        (List.drop ((H1.toNat + H2.toNat) % 2)
          (List.drop H2.toNat (List.drop H1.toNat (List.drop 12 file)))))).length := by
    simp only [List.length_drop]
    omega
  rw [readFull_enough hpres, if_neg hs5]
  simp only []
  have hlen : ((List.take H5.toNat
      (List.drop (2 * H4.toNat) (List.drop ((if H0 = 542 then 4 else 2) * H3.toNat)
        (List.drop ((H1.toNat + H2.toNat) % 2)
          (List.drop H2.toNat (List.drop H1.toNat (List.drop 12 file))))))).length : Int) =
      H5 := by
    rw [List.length_take]
    omega
  split
  · rename_i hl
    rw [loadStrings_eq_none, hlen] at hl
    rw [if_pos hl]
    rfl
  · rename_i strings hl
    have hne := (loadStrings_eq_none _ _ _).not.mp (by rw [hl]; simp)
    rw [hlen] at hne
    rw [if_neg hne]
    rfl

/-- C18 (amended): for every byte buffer, those of at least 12 bytes with an accepted
magic and a declared names length of 0 apart, `load1` ends as `expectedEnding` tells from
the header and the length of the buffer, by the first test that applies: fewer than 12 bytes, error header; a first word other than 0432 and
01036, error magic; a negative names length, panic; a buffer that ends before the end
of the names section, error names section; a names section whose last byte is not NUL,
error names section; a negative booleans count, panic; a buffer that ends before the end
of the booleans section, error booleans section; a negative numbers count, panic; a
positive numbers count and a buffer that ends before the end of the numbers section,
error numbers section; a negative count of string offsets, panic; a positive count and
a buffer that ends before the end of the offsets, error strings section; a negative
length of the string table, panic; a positive length and a buffer that ends before the
end of the string table, error strings table; a string offset other than -1 that is
negative or larger than the declared length of the string table, panic; otherwise a
table. Every error names the file. And `load1` does not panic, whatever the length of
the buffer, when the declared names length is at least 1, no declared length or count is
negative, and every string offset is -1 or lies between 0 and the declared length of the
string table. -/
theorem load1_outcome (filename : String) (file : List Nat) :
    ((12 ≤ file.length → (headerWord file 0 = 282 ∨ headerWord file 0 = 542) →
        headerWord file 1 ≠ 0) →
      ending (load1 filename file) = expectedEnding file) ∧
    (∀ e, load1 filename file = .error e → e.Filename = filename) ∧
    (1 ≤ headerWord file 1 → 0 ≤ headerWord file 2 → 0 ≤ headerWord file 3 →
      0 ≤ headerWord file 4 → 0 ≤ headerWord file 5 →
      (∀ idx ∈ fileOffsets file, idx = -1 ∨ (0 ≤ idx ∧ idx ≤ headerWord file 5)) →
      load1 filename file ≠ .panic) :=
  ⟨load1_ending filename file, fun _ he => (load1_error he).1, load1_no_panic filename file⟩

/-- The file `shortFile` ends before its string table: `load1` returns the error of the
strings table, as `expectedEnding` tells, and does not panic. A file of 12 bytes with a
names length of 1 and a booleans count of -1 ends before its names section: `load1`
returns the error of the names section, the booleans count is not reached. -/
theorem load1_outcome_witness :
    (headerWord shortFile 1 ≠ 0 ∧
      (1 ≤ headerWord shortFile 1 ∧ 0 ≤ headerWord shortFile 2 ∧ 0 ≤ headerWord shortFile 3 ∧
        0 ≤ headerWord shortFile 4 ∧ 0 ≤ headerWord shortFile 5 ∧
        (∀ idx ∈ fileOffsets shortFile,
          idx = -1 ∨ (0 ≤ idx ∧ idx ≤ headerWord shortFile 5)))) ∧
    ending (load1 "xterm" shortFile) = expectedEnding shortFile ∧
    expectedEnding shortFile = .failed "strings table" ∧
    load1 "xterm" shortFile ≠ .panic ∧
    load1 "xterm" shortFile = .error ⟨"xterm", "strings table", .EOF⟩ ∧
    headerWord [26, 1, 1, 0, 255, 255, 0, 0, 0, 0, 0, 0] 1 ≠ 0 ∧
    ending (load1 "xterm" [26, 1, 1, 0, 255, 255, 0, 0, 0, 0, 0, 0]) =
      expectedEnding [26, 1, 1, 0, 255, 255, 0, 0, 0, 0, 0, 0] ∧
    expectedEnding [26, 1, 1, 0, 255, 255, 0, 0, 0, 0, 0, 0] = .failed "names section" :=
  ⟨by decide,
    (load1_outcome "xterm" shortFile).1 (fun _ _ => by decide),
    by decide,
    (load1_outcome "xterm" shortFile).2.2
      (by decide) (by decide) (by decide) (by decide) (by decide) (by decide),
    by decide,
    by decide,
    (load1_outcome "xterm" [26, 1, 1, 0, 255, 255, 0, 0, 0, 0, 0, 0]).1 (fun _ _ => by decide),
    by decide⟩

/-- C18 (as stated) fails: `load1` panics on a negative names length, on a negative
boolean count, on the string offset -2, and on a string offset beyond the end of the
string table. -/
theorem load1_panics :
    load1 "xterm" [26, 1, 255, 255, 0, 0, 0, 0, 0, 0, 0, 0] = .panic ∧
      load1 "xterm" [26, 1, 1, 0, 255, 255, 0, 0, 0, 0, 0, 0, 0] = .panic ∧
      load1 "xterm" [26, 1, 1, 0, 0, 0, 0, 0, 1, 0, 0, 0, 0, 0, 254, 255] = .panic ∧
      load1 "xterm" [26, 1, 1, 0, 0, 0, 0, 0, 1, 0, 2, 0, 0, 0, 3, 0, 97, 0] = .panic := by
  refine ⟨by decide, by decide, by decide, by decide⟩

/-! ## The skip decision of `pad` -/

/-- Past its first `if`, `pad` sleeps, writes or panics: it is not skipped. -/
theorem padEmit_ne_skip (ix : Indices) (ti : TermInfo) (speed : Option Int) (n ospeed : Int) :
    ti.padEmit ix speed n ospeed ≠ .skip := by
  unfold TermInfo.padEmit
  repeat' split
  all_goals simp only [reduceCtorEq, not_false_eq_true, ne_eq]
  all_goals split <;> simp

/-- C19 (amended): a marker that is not mandatory is skipped when the flag XonXoff is set;
when the flag is not set it is skipped if and only if the padding baud rate (from
`BigNumbers` when populated, else from `Numbers`) is negative or the current output
speed (-1 when the query fails) is below it; a mandatory marker is never skipped. -/
theorem pad_skip (ix : Indices) (ti : TermInfo) (speed : Option Int) (n minBaud : Int) :
    (ti.Booleans[ix.XonXoff]? = some true → ti.pad ix speed n false = .skip) ∧
    (ti.Booleans[ix.XonXoff]? = some false → ti.minBaudRate ix = some minBaud →
      (ti.pad ix speed n false = .skip ↔ (minBaud < 0 ∨ speed.getD (-1) < minBaud))) ∧
    ti.pad ix speed n true ≠ .skip := by
  refine ⟨?_, ?_, ?_⟩
  · intro hx
    simp [TermInfo.pad, hx]
  · intro hx hm
    simp only [TermInfo.pad, hx, hm, Bool.not_false, if_true]
    constructor
    · intro h
      by_cases h1 : minBaud < 0
      · exact Or.inl h1
      · rw [if_neg h1] at h
        by_cases h2 : speed.getD (-1) < minBaud
        · exact Or.inr h2
        · simp only [h2, if_false] at h
          exact absurd h (padEmit_ne_skip _ _ _ _ _)
    · intro h
      by_cases h1 : minBaud < 0
      · rw [if_pos h1]
      · rw [if_neg h1]
        have h2 : speed.getD (-1) < minBaud := by
          rcases h with h | h
          · exact absurd h h1
          · exact h
        simp [h2]
  · simp only [TermInfo.pad, Bool.not_true]
    exact padEmit_ne_skip _ _ _ _ _

theorem pad_skip_witness :
    ((padTable 9600).Booleans[stdIndices.XonXoff]? = some false ∧
      (padTable 9600).minBaudRate stdIndices = some 9600) ∧
    ((padTable 9600).pad stdIndices (some 300) 5 false = .skip ↔
      ((9600 : Int) < 0 ∨ (some (300 : Int)).getD (-1) < 9600)) :=
  ⟨⟨by decide, by decide⟩,
    (pad_skip stdIndices (padTable 9600) (some 300) 5 9600).2.1 (by decide) (by decide)⟩

/-- C19 (as stated) fails: on a table without flow control whose padding baud rate is -1
(absent), a marker that is not mandatory is skipped, at any output speed. -/
theorem pad_skips_absent_baud_rate :
    (padTable (-1)).Booleans[stdIndices.XonXoff]? = some false ∧
      (padTable (-1)).minBaudRate stdIndices = some (-1) ∧
      (padTable (-1)).pad stdIndices (some 9600) 5 false = .skip ∧
      (padTable (-1)).pad stdIndices none 5 false = .skip := by
  refine ⟨by decide, by decide, by decide, by decide⟩

/-! ## The guard of `Color` -/

/-- The guard of `Color` lets a table through whose `BigNumbers` has exactly `MaxColors`
entries, and the index expression then panics. -/
theorem Color_panics (ix : Indices) (ti : TermInfo) (after : Int → Option (List Nat))
    (h0 : 0 < ix.MaxColors) (hb : ti.BigNumbers.length = ix.MaxColors) :
    ti.Color ix after = none := by
  have h1 : ¬ (ix.MaxColors ≥ ti.Numbers.length ∧ ix.MaxColors > ti.BigNumbers.length) := by
    omega
  have h2 : ti.BigNumbers.length > 0 := by omega
  have h3 : ti.BigNumbers[ix.MaxColors]? = none := by
    rw [List.getElem?_eq_none_iff]
    omega
  simp only [TermInfo.Color, h1, h2, if_true, if_false, h3]

/-- C20: evaluation at the failing input. A table whose `BigNumbers` has exactly 13
entries, 13 being the index MaxColors, is too short to contain that index; `Color`
panics on it instead of returning the empty string. -/
theorem Color_panics_at_MaxColors :
    (⟨[bytes "xterm"], [], [], List.replicate 13 0, []⟩ : TermInfo).Color stdIndices
      (fun _ => some (bytes "color")) = none := by
  decide

/-- Where the guard of `Color` works: the empty string is returned for a table with 16-bit
numbers that is too short, for a table whose `BigNumbers` has fewer than `MaxColors`
entries, and for a color count that is present and not positive. -/
theorem Color_empty (ix : Indices) (ti : TermInfo) (after : Int → Option (List Nat)) :
    (ti.BigNumbers = [] → ti.Numbers.length ≤ ix.MaxColors → 0 < ix.MaxColors →
      ti.Color ix after = some []) ∧
    (ti.BigNumbers.length < ix.MaxColors → ti.Numbers.length ≤ ix.MaxColors →
      ti.Color ix after = some []) ∧
    (∀ c, ti.BigNumbers = [] → ti.Numbers[ix.MaxColors]? = some c → c ≤ 0 →
      ti.Color ix after = some []) ∧
    (∀ c, ti.BigNumbers[ix.MaxColors]? = some c → c ≤ 0 → ti.Color ix after = some []) := by
  refine ⟨?_, ?_, ?_, ?_⟩
  · intro hb hn h0
    simp [TermInfo.Color, hb, hn, h0]
  · intro hb hn
    have : ix.MaxColors ≥ ti.Numbers.length ∧ ix.MaxColors > ti.BigNumbers.length := ⟨hn, hb⟩
    simp only [TermInfo.Color, this, and_self, if_true]
  · intro c hb hn hc
    have hl : ix.MaxColors < ti.Numbers.length := by
      by_contra hlt
      rw [List.getElem?_eq_none_iff.mpr (by omega)] at hn
      simp at hn
    have h1 : ¬ (ix.MaxColors ≥ ti.Numbers.length ∧ ix.MaxColors > ti.BigNumbers.length) := by
      omega
    simp [TermInfo.Color, h1, hb, hn, hc]
  · intro c hn hc
    have hl : ix.MaxColors < ti.BigNumbers.length := by
      by_contra hlt
      rw [List.getElem?_eq_none_iff.mpr (by omega)] at hn
      simp at hn
    have h1 : ¬ (ix.MaxColors ≥ ti.Numbers.length ∧ ix.MaxColors > ti.BigNumbers.length) := by
      omega
    have h2 : ti.BigNumbers.length > 0 := by omega
    simp only [TermInfo.Color, h1, h2, if_true, if_false, hn, hc]

/-! ## The search path has no duplicates -/

/-- The entries a call adds to a path, in their order, for items already replaced. -/
theorem appendSearchPath_added (items : List String) :
    ∀ path : List String, ∃ added : List String,
      appendSearchPath path items = path ++ added ∧
      (path.Nodup → (path ++ added).Nodup) ∧
      (∀ x, x ∈ added ↔ x ∈ items.map orSystemDir ∧ x ∉ path) ∧
      added.Pairwise (fun x y =>
        (items.map orSystemDir).indexOf x < (items.map orSystemDir).indexOf y) := by
  induction items with
  | nil =>
    intro path
    exact ⟨[], by simp [appendSearchPath], by simp, by simp, List.Pairwise.nil⟩
  | cons it items ih =>
    intro path
    by_cases hin : orSystemDir it ∈ path
    · obtain ⟨added, heq, hnd, hmem, hord⟩ := ih path
      refine ⟨added, ?_, hnd, ?_, ?_⟩
      · have : appendSearchPath path (it :: items) = appendSearchPath path items := by
          simp only [appendSearchPath]
          exact if_pos hin
        rw [this, heq]
      · intro x
        rw [hmem x, List.map_cons, List.mem_cons]
        constructor
        · rintro ⟨h1, h2⟩
          exact ⟨Or.inr h1, h2⟩
        · rintro ⟨h1 | h1, h2⟩
          · rw [h1] at h2
            exact absurd hin h2
          · exact ⟨h1, h2⟩
      · refine List.Pairwise.imp_of_mem ?_ hord
        intro a b ha hb hab
        have ha1 : orSystemDir it ≠ a := fun e => ((hmem a).mp ha).2 (e ▸ hin)
        have hb1 : orSystemDir it ≠ b := fun e => ((hmem b).mp hb).2 (e ▸ hin)
        rw [List.map_cons, List.indexOf_cons_ne _ ha1, List.indexOf_cons_ne _ hb1]
        omega
    · obtain ⟨added, heq, hnd, hmem, hord⟩ := ih (path ++ [orSystemDir it])
      refine ⟨orSystemDir it :: added, ?_, ?_, ?_, ?_⟩
      · have : appendSearchPath path (it :: items) =
            appendSearchPath (path ++ [orSystemDir it]) items := by
          simp only [appendSearchPath]
          exact if_neg hin
        rw [this, heq]
        simp
      · intro hp
        have h1 : (path ++ [orSystemDir it]).Nodup := by
          rw [List.nodup_append]
          refine ⟨hp, List.nodup_singleton _, ?_⟩
          intro a ha hb
          rw [List.mem_singleton] at hb
          exact hin (hb ▸ ha)
        have := hnd h1
        simpa using this
      · intro x
        rw [List.mem_cons, hmem x, List.map_cons, List.mem_cons, List.mem_append,
          List.mem_singleton]
        constructor
        · rintro (h | ⟨h1, h2⟩)
          · rw [h]
            exact ⟨Or.inl rfl, hin⟩
          · exact ⟨Or.inr h1, fun hx => h2 (Or.inl hx)⟩
        · rintro ⟨h1 | h1, h2⟩
          · exact Or.inl h1
          · by_cases hx : x = orSystemDir it
            · exact Or.inl hx
            · exact Or.inr ⟨h1, fun h => h.elim h2 hx⟩
      · rw [List.pairwise_cons]
        constructor
        · intro b hb
          have hb1 : orSystemDir it ≠ b := by
            intro e
            exact ((hmem b).mp hb).2 (List.mem_append_right _ (by rw [e]; simp))
          rw [List.map_cons, List.indexOf_cons_self, List.indexOf_cons_ne _ hb1]
          omega
        · refine List.Pairwise.imp_of_mem ?_ hord
          intro a b ha hb hab
          have ha1 : orSystemDir it ≠ a := by
            intro e
            exact ((hmem a).mp ha).2 (List.mem_append_right _ (by rw [e]; simp))
          have hb1 : orSystemDir it ≠ b := by
            intro e
            exact ((hmem b).mp hb).2 (List.mem_append_right _ (by rw [e]; simp))
          rw [List.map_cons, List.indexOf_cons_ne _ ha1, List.indexOf_cons_ne _ hb1]
          omega

/-- C21: for a path without duplicates and any items, `appendSearchPath` returns a list
without duplicates that has the path as a prefix, whose elements are exactly those of
the path and those of the items, an empty item counting as `/etc/terminfo`, and in
which the entries added appear in the order of their first occurrence in the items. -/
theorem appendSearchPath_dedup (path items : List String) (hp : path.Nodup) :
    (appendSearchPath path items).Nodup ∧
    path <+: appendSearchPath path items ∧
    (∀ x, x ∈ appendSearchPath path items ↔ x ∈ path ∨ x ∈ items.map orSystemDir) ∧
    ((appendSearchPath path items).drop path.length).Pairwise (fun x y =>
      (items.map orSystemDir).indexOf x < (items.map orSystemDir).indexOf y) := by
  obtain ⟨added, heq, hnd, hmem, hord⟩ := appendSearchPath_added items path
  rw [heq]
  refine ⟨hnd hp, List.prefix_append _ _, ?_, ?_⟩
  · intro x
    rw [List.mem_append, hmem x]
    constructor
    · rintro (h | ⟨h, _⟩)
      · exact Or.inl h
      · exact Or.inr h
    · rintro (h | h)
      · exact Or.inl h
      · by_cases hx : x ∈ path
        · exact Or.inl hx
        · exact Or.inr ⟨h, hx⟩
  · rw [List.drop_left]
    exact hord

theorem appendSearchPath_dedup_witness :
    ["/home/u/.terminfo"].Nodup ∧
    appendSearchPath ["/home/u/.terminfo"]
        ["", "/lib/terminfo", "/etc/terminfo", "/home/u/.terminfo", "/lib/terminfo"] =
      ["/home/u/.terminfo", "/etc/terminfo", "/lib/terminfo"] ∧
    (appendSearchPath ["/home/u/.terminfo"]
        ["", "/lib/terminfo", "/etc/terminfo", "/home/u/.terminfo", "/lib/terminfo"]).Nodup :=
  ⟨by decide, by decide,
    (appendSearchPath_dedup ["/home/u/.terminfo"]
      ["", "/lib/terminfo", "/etc/terminfo", "/home/u/.terminfo", "/lib/terminfo"]
      (by decide)).1⟩

/-- The search path has no duplicates. -/
theorem searchPath_nodup (tiDir : String) (dirs compiledIn : List String) :
    (searchPath tiDir dirs compiledIn).Nodup := by
  unfold searchPath
  exact (appendSearchPath_dedup _ _ ((appendSearchPath_dedup _ _
    ((appendSearchPath_dedup _ _ ((appendSearchPath_dedup [] [tiDir] List.nodup_nil).1)).1)).1)).1

end Terminfo
